import Mathlib

/-!
Shallow embedding of the color-remapping, file-recoloring, backup/restore and
step-orchestration core of the material-gnome repository
(`material-you-installer-gui.py` and `material_you_installer.py`), together
with proofs of the specified properties.

Conventions:
* Python strings are `List Char`; hex color literals are 7-character lists
  (`'#'` followed by six hex digits).
* Python floats are modelled as exact rationals (`ℚ`); the numeric literals
  the code compares against (0.5, 35, 0.05) are exact in both representations.
* Filesystem state is a map from path strings to optional contents; a write
  either succeeds (content replaced) or fails (state unchanged).
-/

namespace MaterialGnome

/-! ### ASCII character helpers (Python `str.lower` / `str.upper` / `str.isupper`
restricted to the ASCII range, which is all the color code manipulates). -/

/-- Python `str.lower()` on one ASCII character. -/
def toLowerChar (c : Char) : Char :=
  if 65 ≤ c.toNat ∧ c.toNat ≤ 90 then Char.ofNat (c.toNat + 32) else c

/-- Python `str.upper()` on one ASCII character. -/
def toUpperChar (c : Char) : Char :=
  if 97 ≤ c.toNat ∧ c.toNat ≤ 122 then Char.ofNat (c.toNat - 32) else c

/-- ASCII lowercase letter. -/
def isLowerAlpha (c : Char) : Bool := 97 ≤ c.toNat && c.toNat ≤ 122

/-- ASCII uppercase letter. -/
def isUpperAlpha (c : Char) : Bool := 65 ≤ c.toNat && c.toNat ≤ 90

/-- ASCII letter. -/
def isAlphaChar (c : Char) : Bool := isLowerAlpha c || isUpperAlpha c

/-- A hex digit as the Python regex class `[0-9a-fA-F]` accepts it. -/
def isHexDigitChar (c : Char) : Bool :=
  (48 ≤ c.toNat && c.toNat ≤ 57) || (97 ≤ c.toNat && c.toNat ≤ 102) ||
    (65 ≤ c.toNat && c.toNat ≤ 70)

/-- A lowercase hex digit `[0-9a-f]`. -/
def isLowerHexDigit (c : Char) : Bool :=
  (48 ≤ c.toNat && c.toNat ≤ 57) || (97 ≤ c.toNat && c.toNat ≤ 102)

/-- Python word character `\w` restricted to ASCII: `[A-Za-z0-9_]`. -/
def isWordChar (c : Char) : Bool :=
  isAlphaChar c || (48 ≤ c.toNat && c.toNat ≤ 57) || c = '_'

/-- Python `s.isupper()`: at least one cased character and no lowercase one
(the cased characters occurring in hex literals are ASCII letters). -/
def pyIsUpper (s : List Char) : Bool :=
  s.any isAlphaChar && s.all (fun c => !isLowerAlpha c)

/-- Hex color strings are character lists. -/
abbrev Hex := List Char

/-- A well-formed lowercase hex color literal: `'#'` plus six
lowercase hex digits. -/
def isLowerHex7 (x : Hex) : Bool :=
  match x with
  | '#' :: ds => ds.length == 6 && ds.all isLowerHexDigit
  | _ => false

def lowerList (s : List Char) : List Char := s.map toLowerChar

/-! ### The recoloring pass (`recolor_file` in material-you-installer-gui.py)

The pattern `'(' + '|'.join(re.escape(v) for v in color_map) + ')'` with
`re.IGNORECASE` scans the text left to right; at each position the alternation
tries the map keys in insertion order and the first key whose literal matches
case-insensitively wins.  The replacer lowercases the matched text, looks it up
in the map (falling back to the matched text) and re-emits `'#' + new[1:].upper()`
when the matched literal satisfied `isupper()`.  A `ColorMap` is the Python
dict as an insertion-ordered association list. -/

abbrev ColorMap := List (Hex × Hex)

/-- First-match lookup by exact key (Python `dict.get`). -/
def lookupHex (m : ColorMap) (k : Hex) : Option Hex :=
  match m with
  | [] => none
  | (a, b) :: rest => if a = k then some b else lookupHex rest k

/-- Does the (escaped, case-insensitive) literal `k` match at the start of
`cs`?  Nonempty literals only: every key the program ever feeds the pattern is
a 7-character hex literal. -/
def matchesKey (k : Hex) (cs : List Char) : Bool :=
  !k.isEmpty && decide (k.length ≤ cs.length) &&
    ((cs.take k.length).map toLowerChar == k.map toLowerChar)

/-- The first map key (in insertion order) matching at the start of `cs`. -/
def findKey (m : ColorMap) (cs : List Char) : Option Hex :=
  match m with
  | [] => none
  | (k, _) :: rest => if matchesKey k cs then some k else findKey rest cs

/-- The `_replacer` callback: lowercase the match, look it up, preserve a
fully-uppercase literal's case. -/
def substHere (m : ColorMap) (t : List Char) : List Char :=
  let matched := lowerList t
  let new := (lookupHex m matched).getD t
  if pyIsUpper (t.drop 1) then '#' :: (new.drop 1).map toUpperChar else new

/-- One left-to-right substitution pass (`pattern.sub(_replacer, text)`),
with explicit fuel for structural recursion; `recolorChars` supplies
`cs.length`, which never runs out because every match consumes at least one
character. -/
def recolorFuel (m : ColorMap) : ℕ → List Char → List Char
  | _, [] => []
  | 0, cs => cs
  | fuel + 1, c :: cs' =>
    match findKey m (c :: cs') with
    | some k =>
        substHere m ((c :: cs').take k.length) ++
          recolorFuel m fuel (cs'.drop (k.length - 1))
    | none => c :: recolorFuel m fuel cs'

/-- `pattern.sub(_replacer, text)` on the whole text. -/
def recolorChars (m : ColorMap) (cs : List Char) : List Char :=
  recolorFuel m cs.length cs

/-! ### Well-formed color maps -/

/-- Both sides of an entry are lowercase `#rrggbb` literals (the shape
`build_full_color_map` produces). -/
def goodEntry (kv : Hex × Hex) : Prop :=
  isLowerHex7 kv.1 = true ∧ isLowerHex7 kv.2 = true

/-- Every entry of the map is well-formed. -/
def GoodMap (m : ColorMap) : Prop := ∀ kv ∈ m, goodEntry kv

/-- No value of the map is also a key of the map.  This is what makes the
second substitution pass a no-op. -/
def ValuesNotKeys (m : ColorMap) : Prop :=
  ∀ kv ∈ m, ∀ kv' ∈ m, kv.2 ≠ kv'.1

/-! ### Color conversion (colorsys and the HSL helpers), over exact rationals

Python floats are modelled by `ℚ`.  All branch conditions the algorithm uses
(`< 0.5`, `≤ 35`, `> 0.05`, equality of channel values) are exact on the
rationals; only the final rounding step `int(x * 255 + 0.5)` can differ from
binary64 arithmetic in the last bit, which no specified property depends on. -/

/-- Python `x % 1.0` for a positive modulus. -/
def pyMod1 (x : ℚ) : ℚ := x - ⌊x⌋

/-- Python `x % 360`. -/
def pyMod360 (x : ℚ) : ℚ := x - 360 * ⌊x / 360⌋

/-- Python `int(q)` (truncation toward zero). -/
def pyInt (q : ℚ) : ℤ := if 0 ≤ q then ⌊q⌋ else -⌊-q⌋

/-- `colorsys.rgb_to_hls`. -/
def rgb_to_hls (r g b : ℚ) : ℚ × ℚ × ℚ :=
  let maxc := max r (max g b)
  let minc := min r (min g b)
  let sumc := maxc + minc
  let rangec := maxc - minc
  let l := sumc / 2
  if minc = maxc then (0, l, 0)
  else
    let s := if l ≤ 1/2 then rangec / sumc else rangec / (2 - sumc)
    let rc := (maxc - r) / rangec
    let gc := (maxc - g) / rangec
    let bc := (maxc - b) / rangec
    let h := if r = maxc then bc - gc
      else if g = maxc then 2 + rc - bc
      else 4 + gc - rc
    (pyMod1 (h / 6), l, s)

/-- `colorsys._v`. -/
def hlsV (m1 m2 hue₀ : ℚ) : ℚ :=
  let hue := pyMod1 hue₀
  if hue < 1/6 then m1 + (m2 - m1) * hue * 6
  else if hue < 1/2 then m2
  else if hue < 2/3 then m1 + (m2 - m1) * (2/3 - hue) * 6
  else m1

/-- `colorsys.hls_to_rgb`. -/
def hls_to_rgb (h l s : ℚ) : ℚ × ℚ × ℚ :=
  if s = 0 then (l, l, l)
  else
    let m2 := if l ≤ 1/2 then l * (1 + s) else l + s - l * s
    let m1 := 2 * l - m2
    (hlsV m1 m2 (h + 1/3), hlsV m1 m2 h, hlsV m1 m2 (h - 1/3))

/-- `int(hex_color[i:i+2], 16)`: numeric value of one hex digit. -/
def hexDigitVal (c : Char) : ℕ :=
  if 48 ≤ c.toNat ∧ c.toNat ≤ 57 then c.toNat - 48
  else if 97 ≤ c.toNat ∧ c.toNat ≤ 102 then c.toNat - 87
  else if 65 ≤ c.toNat ∧ c.toNat ≤ 70 then c.toNat - 55
  else 0

/-- The byte at positions `i, i+1` of a hex literal. -/
def hexByte (x : Hex) (i : ℕ) : ℕ :=
  16 * hexDigitVal (x.getD i '0') + hexDigitVal (x.getD (i + 1) '0')

/-- `hex_to_hsl`: `#rrggbb` to `(H, S, L)`, `H` in degrees. -/
def hex_to_hsl (x : Hex) : ℚ × ℚ × ℚ :=
  let r : ℚ := (hexByte x 1 : ℚ) / 255
  let g : ℚ := (hexByte x 3 : ℚ) / 255
  let b : ℚ := (hexByte x 5 : ℚ) / 255
  let hls := rgb_to_hls r g b
  (hls.1 * 360, hls.2.2, hls.2.1)

/-- `max(0, min(255, i))` as a natural number. -/
def clamp255 (i : ℤ) : ℕ := (max 0 (min 255 i)).toNat

/-- One lowercase hex digit of a value below 16 (the `x` format). -/
def digitChar (n : ℕ) : Char :=
  if n < 10 then Char.ofNat (48 + n) else Char.ofNat (87 + n)

/-- `f"{n:02x}"` for `n ≤ 255`. -/
def toHex2 (n : ℕ) : List Char := [digitChar (n / 16), digitChar (n % 16)]

/-- `hsl_to_hex`: `(H, S, L)` back to `#rrggbb`. -/
def hsl_to_hex (h s l : ℚ) : Hex :=
  let rgb := hls_to_rgb (h / 360) l s
  let ri := clamp255 (pyInt (rgb.1 * 255 + 1/2))
  let gi := clamp255 (pyInt (rgb.2.1 * 255 + 1/2))
  let bi := clamp255 (pyInt (rgb.2.2 * 255 + 1/2))
  '#' :: (toHex2 ri ++ toHex2 gi ++ toHex2 bi)

/-! ### `PROTECTED_COLORS` and `build_full_color_map` -/

/-- The `PROTECTED_COLORS` set of material-you-installer-gui.py. -/
def PROTECTED_COLORS : List Hex :=
  ["#3584e4", "#1c71d8", "#1a5fb4", "#99c1f1", "#62a0ea",
   "#33d17a", "#2ec27e", "#26a269", "#57e389", "#8ff0a4", "#8cd48c", "#1b5e20",
   "#f9f06b", "#f8e45c", "#f6d32d", "#f5c211", "#e5a50a",
   "#f66151", "#ed333b", "#e01b24", "#c01c28", "#a51d2d",
   "#dc8add", "#c061cb", "#9141ac", "#813d9c", "#613583",
   "#e4dfff", "#c8bfff", "#2f2d5e", "#464490",
   "#ffffff", "#f6f5f4", "#deddda", "#c0bfbc", "#9a9996",
   "#77767b", "#5e5c64", "#3d3846", "#241f31", "#000000",
   "#93000a", "#a5000c", "#ffb4ab",
   "#a8c77a", "#ffc888"].map String.toList

/-- A palette: the Python dict of token → hex string, in insertion order. -/
abbrev Palette := List (String × String)

def lookupTok (p : Palette) (t : String) : Option String :=
  match p with
  | [] => none
  | (a, b) :: rest => if a = t then some b else lookupTok rest t

/-- The `"primary"` token's hex value (the Python code indexes the dict and
would raise on a malformed palette; the default is never reached on
well-formed input). -/
def primaryHex (p : Palette) : Hex := ((lookupTok p "primary").getD "#000000").toList

/-- `mapping[k] = v` on a dict modelled as an insertion-ordered list:
update in place if the key exists, else append. -/
def dictInsert (m : ColorMap) (k v : Hex) : ColorMap :=
  if (lookupHex m k).isSome then
    m.map (fun p => if p.1 = k then (k, v) else p)
  else m ++ [(k, v)]

/-- Step 1 of `build_full_color_map`: direct palette token diffs. -/
def buildDirect (old new : Palette) : ColorMap :=
  old.foldl
    (fun acc kv =>
      match lookupTok new kv.1 with
      | some nv =>
        let oh := lowerList kv.2.toList
        let nh := lowerList nv.toList
        if oh ≠ nh then dictInsert acc oh nh else acc
      | none => acc)
    []

/-- A candidate position matches `r'#[0-9a-fA-F]{6}\b'` at the start of the
suffix `t`: a `'#'`, six hex digits, and a word boundary after (out-of-range
reads default to `' '`, which is neither a hex digit nor a word character,
so truncated literals and end-of-text both behave like the regex). -/
def hexMatchHere (t : List Char) : Bool :=
  t.getD 0 ' ' = '#' &&
    isHexDigitChar (t.getD 1 ' ') && isHexDigitChar (t.getD 2 ' ') &&
    isHexDigitChar (t.getD 3 ' ') && isHexDigitChar (t.getD 4 ' ') &&
    isHexDigitChar (t.getD 5 ' ') && isHexDigitChar (t.getD 6 ' ') &&
    !isWordChar (t.getD 7 ' ')

/-- `re.findall(r'#[0-9a-fA-F]{6}\b', text)`, lowercased: 6-digit hex
literal matches never overlap, so scanning every position is equivalent to
`findall`'s non-overlapping scan. -/
def findHexes (s : List Char) : List Hex :=
  (List.range s.length).filterMap fun i =>
    if hexMatchHere (s.drop i) then some (lowerList ((s.drop i).take 7))
    else none

def insertUnique (acc : List Hex) (h : Hex) : List Hex :=
  if h ∈ acc then acc else acc ++ [h]

/-- The distinct hex literals of all readable candidate files (`None`
models a file that does not exist or cannot be read).  The Python code
accumulates into a `set`, whose iteration order is unspecified; the model
uses first-occurrence order, on which no specified property depends. -/
def collectHexes (files : List (Option (List Char))) : List Hex :=
  files.foldl
    (fun acc of =>
      match of with
      | some s => (findHexes s).foldl insertUnique acc
      | none => acc)
    []

/-- Step 4's per-color test: hue distance to the old primary at most 35°,
saturation above 0.05, and shifting must actually change the hex. -/
def shiftHex (oldHue shift : ℚ) (hx : Hex) : Option Hex :=
  let hsl := hex_to_hsl hx
  let d0 := |hsl.1 - oldHue|
  let d := if d0 > 180 then 360 - d0 else d0
  if d ≤ 35 ∧ hsl.2.1 > 1/20 then
    let nh := hsl_to_hex (pyMod360 (hsl.1 + shift)) hsl.2.1 hsl.2.2
    if nh ≠ hx then some nh else none
  else none

/-- The `continue` guard of step 4's loop: the color is already a key, is
protected, or is one of the snapshot target values. -/
def extraSkip (tv : List Hex) (m : ColorMap) (hx : Hex) : Bool :=
  (lookupHex m hx).isSome || decide (hx ∈ PROTECTED_COLORS) || decide (hx ∈ tv)

/-- Step 4's loop: `tv` is the snapshot `set(mapping.values())` taken before
the loop; the mapping itself grows as entries are appended. -/
def buildExtra (tv : List Hex) (oldHue shift : ℚ) :
    ColorMap → List Hex → ColorMap
  | m, [] => m
  | m, hx :: rest =>
    match extraSkip tv m hx, shiftHex oldHue shift hx with
    | true, _ => buildExtra tv oldHue shift m rest
    | false, some nh => buildExtra tv oldHue shift (m ++ [(hx, nh)]) rest
    | false, none => buildExtra tv oldHue shift m rest

def mapValues (m : ColorMap) : List Hex := m.map Prod.snd

/-- `build_full_color_map(old_palette, new_palette, css_files)`. -/
def build_full_color_map (old new : Palette)
    (files : List (Option (List Char))) : ColorMap :=
  let mapping := buildDirect old new
  let oldHue := (hex_to_hsl (primaryHex old)).1
  let newHue := (hex_to_hsl (primaryHex new)).1
  let hueShift := newHue - oldHue
  if |hueShift| < 1/2 then mapping
  else buildExtra (mapValues mapping) oldHue hueShift mapping
    (collectHexes files)

/-- The signed hue shift between the two palettes' primaries. -/
def hueShiftOf (old new : Palette) : ℚ :=
  (hex_to_hsl (primaryHex new)).1 - (hex_to_hsl (primaryHex old)).1

/-- Circular hue distance as computed in step 4. -/
def circHueDist (h oldHue : ℚ) : ℚ :=
  let d0 := |h - oldHue|
  if d0 > 180 then 360 - d0 else d0

/-- A `#`-prefixed 6-digit hex literal, any letter case. -/
def isHex7 (x : Hex) : Bool :=
  match x with
  | '#' :: ds => ds.length == 6 && ds.all isHexDigitChar
  | _ => false

/-- A well-formed palette: every token value is a `#`-prefixed 6-digit hex
string (the data-model invariant on palettes). -/
def PaletteWF (p : Palette) : Prop := ∀ kv ∈ p, isHex7 kv.2.toList = true

/-! ### Shape invariants of the built color map -/

/-- Every entry is a pair of lowercase hex literals and no key maps to
itself. -/
def GoodNeMap (m : ColorMap) : Prop :=
  ∀ kv ∈ m, goodEntry kv ∧ kv.1 ≠ kv.2

/-! ### Filesystem model

Paths are strings; `files` maps a path to its content (`none`: the file does
not exist or cannot be read), `writable` models whether a write to the path
succeeds (a failing write raises `OSError` before any content change, so the
state is unchanged), `manifests` holds parsed `manifest.json` contents
(serialization is modelled as the identity), and `dconf` holds the current
dump of each dconf path (`""`: empty). -/

structure Manifest where
  timestamp : String
  files : List (String × String)
  dconf : List (String × String)
deriving DecidableEq

structure FS where
  files : String → Option (List Char)
  writable : String → Bool
  manifests : String → Option Manifest
  dconf : String → String

def fsWrite (fs : FS) (p : String) (c : List Char) : FS :=
  { fs with files := fun q => if q = p then some c else fs.files q }

def dconfSet (fs : FS) (p v : String) : FS :=
  { fs with dconf := fun q => if q = p then v else fs.dconf q }

/-! ### `recolor_file` (material-you-installer-gui.py) -/

/-- `recolor_file(path, color_map)`: read, substitute, write back only on
change; unreadable or unwritable files give `False` with no state change. -/
def recolor_file (fs : FS) (path : String) (m : ColorMap) : Bool × FS :=
  match fs.files path with
  | none => (false, fs)
  | some text =>
    if m.isEmpty then (false, fs)
    else
      if recolorChars m text ≠ text then
        if fs.writable path then (true, fsWrite fs path (recolorChars m text))
        else (false, fs)
      else (false, fs)

/-! ### `BackupManager` (material_you_installer.py)

The manager state carries the dry-run flag, the run timestamp and the
manifest lists being accumulated; `fileCalls` is a ghost log recording each
`backup_file` invocation (observable in the code as console output and
backup-tree writes). -/

structure BM where
  dryRun : Bool
  timestamp : String
  manifestFiles : List (String × String)
  manifestDconf : List (String × String)
  fileCalls : List String
deriving DecidableEq

def BACKUP_BASE (home : String) : String :=
  home ++ "/.local/share/material-you-orange/backups"

def backupDirOf (home : String) (bm : BM) : String :=
  BACKUP_BASE home ++ "/" ++ bm.timestamp

/-- `str.replace(pat, repl)`, left-to-right and non-overlapping, with fuel
for structural recursion (the pattern — the home directory string — is
never empty). -/
def replaceAllFuel (pat repl : List Char) : ℕ → List Char → List Char
  | _, [] => []
  | 0, s => s
  | f + 1, c :: s' =>
    if pat ≠ [] ∧ pat.isPrefixOf (c :: s') then
      repl ++ replaceAllFuel pat repl f (s'.drop (pat.length - 1))
    else c :: replaceAllFuel pat repl f s'

def replaceAll (s pat repl : String) : String :=
  String.mk (replaceAllFuel pat.toList repl.toList s.toList.length s.toList)

/-- `str.lstrip("~/")` strips every leading character of the set. -/
def lstripTildeSlash (s : String) : String :=
  String.mk (s.toList.dropWhile fun c => c = '~' || c = '/')

/-- The backup destination `backup_dir / "files" / rel.lstrip("~/")` where
`rel = str(path).replace(home, "~")`. -/
def backupFileDest (home backupDir p : String) : String :=
  backupDir ++ "/files/" ++ lstripTildeSlash (replaceAll p home "~")

/-- `BackupManager.backup_file`: nonexistent paths are not an error; in dry
run nothing is copied or recorded; otherwise the file is copied into the
backup tree and the manifest gains a `{original, backup}` record. -/
def backup_file (home : String) (fs : FS) (bm : BM) (p : String) :
    Bool × FS × BM :=
  let bmc := { bm with fileCalls := bm.fileCalls ++ [p] }
  match fs.files p with
  | none => (false, fs, bmc)
  | some content =>
    if bmc.dryRun then (true, fs, bmc)
    else
      let dest := backupFileDest home (backupDirOf home bmc) p
      (true, fsWrite fs dest content,
        { bmc with manifestFiles := bmc.manifestFiles ++ [(p, dest)] })

/-- `BackupManager.save_manifest`: one JSON write at run end (no-op in dry
run). -/
def save_manifest (home : String) (fs : FS) (bm : BM) : FS :=
  if bm.dryRun then fs
  else
    { fs with manifests := fun q =>
        if q = backupDirOf home bm ++ "/manifest.json" then
          some ⟨bm.timestamp, bm.manifestFiles, bm.manifestDconf⟩
        else fs.manifests q }

/-- One line of restore output per processed record. -/
inductive RestoreReport
  | fileRestored (dst : String)
  | fileBackupMissing (src : String)
  | dconfRestored (path : String)
  | dconfLoadFailed (path : String)
  | dconfBackupMissing (src : String)
deriving DecidableEq

/-- The file loop of `BackupManager.restore`: copy backup → original when
the backup exists, report and continue when it is missing. -/
def restoreFiles : List (String × String) → FS → FS × List RestoreReport
  | [], fs => (fs, [])
  | (orig, bak) :: rest, fs =>
    match fs.files bak with
    | some c =>
      let r := restoreFiles rest (fsWrite fs orig c)
      (r.1, .fileRestored orig :: r.2)
    | none =>
      let r := restoreFiles rest fs
      (r.1, .fileBackupMissing bak :: r.2)

/-- The dconf loop of `BackupManager.restore`: reset the path, then load the
dump; `loadOk` models the exit status of `dconf load`. -/
def restoreDconf (loadOk : String → String → Bool) :
    List (String × String) → FS → FS × List RestoreReport
  | [], fs => (fs, [])
  | (path, bak) :: rest, fs =>
    match fs.files bak with
    | some data =>
      let fs₁ := dconfSet fs path ""
      if loadOk path (String.mk data) then
        let r := restoreDconf loadOk rest (dconfSet fs₁ path (String.mk data))
        (r.1, .dconfRestored path :: r.2)
      else
        let r := restoreDconf loadOk rest fs₁
        (r.1, .dconfLoadFailed path :: r.2)
    | none =>
      let r := restoreDconf loadOk rest fs
      (r.1, .dconfBackupMissing bak :: r.2)

/-- `BackupManager.restore(backup_dir)`: fails only when `manifest.json` is
absent; otherwise every file record and every dconf record is processed. -/
def restore (loadOk : String → String → Bool) (backupDir : String)
    (fs : FS) : Bool × FS × List RestoreReport :=
  match fs.manifests (backupDir ++ "/manifest.json") with
  | none => (false, fs, [])
  | some man =>
    let r₁ := restoreFiles man.files fs
    let r₂ := restoreDconf loadOk man.dconf r₁.1
    (true, r₂.1, r₁.2 ++ r₂.2)

/-! ### Step 1 (`GnomeShellInstaller`) and the orchestrator -/

inductive Status
  | success | skipped | failed | pending
deriving DecidableEq

structure ComponentResult where
  number : ℕ
  name : String
  status : Status
  message : String
deriving DecidableEq

def gnomeShellSrc (themeDir : String) : String :=
  themeDir ++ "/gnome-shell/gnome-shell.css"

def gnomeShellDst (home : String) : String :=
  home ++ "/.themes/Material-You-Orange/gnome-shell/gnome-shell.css"

/-- `GnomeShellInstaller.install`: missing source fails; the destination is
backed up (unconditionally, before the dry-run check); dry run returns
Success without copying; otherwise the stylesheet is copied. -/
def gnomeShellInstall (themeDir home : String) (fs : FS) (bm : BM)
    (dryRun : Bool) : ComponentResult × FS × BM :=
  match fs.files (gnomeShellSrc themeDir) with
  | none => (⟨1, "GNOME Shell Theme", .failed, "Source gnome-shell.css not found"⟩,
      fs, bm)
  | some content =>
    let b := backup_file home fs bm (gnomeShellDst home)
    if dryRun then
      (⟨1, "GNOME Shell Theme", .success,
        "Would copy to " ++ gnomeShellDst home⟩, b.2.1, b.2.2)
    else
      (⟨1, "GNOME Shell Theme", .success, "Installed"⟩,
        fsWrite b.2.1 (gnomeShellDst home) content, b.2.2)

/-- A registry entry: stable number, name, sudo flag. -/
structure Step where
  number : ℕ
  name : String
  requiresSudo : Bool
deriving DecidableEq

/-- The `ALL_STEPS` registry. -/
def ALL_STEPS : List Step :=
  [⟨1, "GNOME Shell Theme", false⟩,
   ⟨2, "GTK4 Theme", false⟩,
   ⟨3, "GTK3 Theme", false⟩,
   ⟨4, "Ptyxis Palette", false⟩,
   ⟨5, "Fastfetch Config", false⟩,
   ⟨6, "Burn My Windows", false⟩,
   ⟨7, "Wallpaper", false⟩,
   ⟨8, "Fonts (Inter, Fira Code, Noto Serif)", false⟩,
   ⟨9, "Papirus Icons", false⟩,
   ⟨10, "Bibata Cursor", false⟩,
   ⟨11, "GNOME Extensions", false⟩,
   ⟨12, "dconf Settings", false⟩,
   ⟨13, "Flatpak Overrides", false⟩,
   ⟨14, "Flatpak GTK Symlinks", false⟩,
   ⟨15, "Firefox Theme", false⟩,
   ⟨16, "GDM Theme", true⟩,
   ⟨17, "DING Desktop Icons Fix", false⟩,
   ⟨18, "rEFInd Boot Manager", true⟩,
   ⟨19, "rEFInd Material You Theme", true⟩]

/-- `[s for s in ALL_STEPS if s.number in nums]`. -/
def selectSteps (nums : List ℕ) : List Step :=
  ALL_STEPS.filter fun s => decide (s.number ∈ nums)

/-- The outcome of one `step.install(...)` invocation: a returned result
(each concrete step constructs it with its own number and name), a raised
`Exception`, or a raised `KeyboardInterrupt`. -/
inductive StepOutcome
  | ok (st : Status) (msg : String)
  | exc (msg : String)
  | kbint
deriving DecidableEq

/-- The user's answer to the interactive `[R]etry / [S]kip / [A]bort`
prompt. -/
inductive Decision
  | retry | skip | abort
deriving DecidableEq

def mkResult (s : Step) (st : Status) (msg : String) : ComponentResult :=
  ⟨s.number, s.name, st, msg⟩

/-- The interactive `while True` prompt loop of `_install_single`.  `none`
means the loop never produced a result for this step: the user chose abort
(raising `KeyboardInterrupt`), a `KeyboardInterrupt` arrived during a retry
(not caught by the `except Exception` there), or — as a model artifact — the
supplied decision stream ran out, in which case the real loop would still be
blocked at the prompt with no result produced and no further step run. -/
def promptLoop (s : Step) : List Decision → List StepOutcome →
    Option ComponentResult
  | [], _ => none
  | d :: ds, attempts =>
    match d with
    | .skip => some (mkResult s .skipped "Skipped by user")
    | .abort => none
    | .retry =>
      match attempts with
      | [] => none
      | a :: as =>
        match a with
        | .ok st msg => some (mkResult s st msg)
        | .exc _ => promptLoop s ds as
        | .kbint => none

/-- `_install_single`: the first invocation's outcome, then the failure
policy.  `attempts` lists the outcomes of successive `step.install`
invocations; `decisions` the user's prompt answers. -/
def installSingle (nonInteractive : Bool) (s : Step)
    (attempts : List StepOutcome) (decisions : List Decision) :
    Option ComponentResult :=
  match attempts with
  | [] => none
  | a :: as =>
    match a with
    | .ok st msg => some (mkResult s st msg)
    | .kbint => some (mkResult s .failed "Interrupted")
    | .exc e =>
      if nonInteractive then some (mkResult s .failed e)
      else promptLoop s decisions as

/-- `_install_steps`: strictly sequential; one result appended per resolved
step; an unhandled `KeyboardInterrupt` (abort) stops the loop with the
remaining steps unexecuted.  The Boolean records whether the loop was
aborted. -/
def installSteps (nonInteractive : Bool)
    (behavior : ℕ → List StepOutcome × List Decision) :
    List Step → List ComponentResult × Bool
  | [] => ([], false)
  | s :: rest =>
    match installSingle nonInteractive s (behavior s.number).1
        (behavior s.number).2 with
    | some r =>
      let t := installSteps nonInteractive behavior rest
      (r :: t.1, t.2)
    | none => ([], true)

structure RunOutcome where
  results : List ComponentResult
  manifestSaved : Bool
deriving DecidableEq

/-- The install phase of `ThemeInstaller.run`: run the selected steps, then
call `save_manifest` — but an abort propagates out of `_install_steps` as
`KeyboardInterrupt`, is caught only in `main`, and skips the
`save_manifest` call. -/
def runInstallPhase (noBackup nonInteractive : Bool)
    (behavior : ℕ → List StepOutcome × List Decision)
    (steps : List Step) : RunOutcome :=
  let t := installSteps nonInteractive behavior steps
  if t.2 then ⟨t.1, false⟩ else ⟨t.1, !noBackup⟩

/-- A sample filesystem for concrete checks: the theme source stylesheet
and an existing destination stylesheet. -/
def sampleFS : FS :=
  { files := fun p =>
      if p = "/t/gnome-shell/gnome-shell.css" then some "new-css".toList
      else if p = "/h/.themes/Material-You-Orange/gnome-shell/gnome-shell.css"
        then some "old-css".toList
      else none
    writable := fun _ => true
    manifests := fun _ => none
    dconf := fun _ => "" }

/-- A dry-run backup manager with an empty manifest. -/
def sampleBM : BM := ⟨true, "20240101_000000", [], [], []⟩

/-- Per-step behavior used in the orchestrator scenarios: step 1's install
raises and the user answers Abort; every other step succeeds. -/
def sampleBehavior : ℕ → List StepOutcome × List Decision := fun n =>
  if n = 1 then ([.exc "boom"], [.abort])
  else ([.ok .success "Installed"], [])

/-- A behavior in which every step's first install invocation succeeds. -/
def allOkBehavior : ℕ → List StepOutcome × List Decision :=
  fun _ => ([.ok .success "done"], [])

/-- A filesystem holding a manifest with two file records (one backup
missing) and one dconf record, for concrete restore checks. -/
def sampleRestoreFS : FS :=
  { files := fun p => if p = "/b/bak1" then some "X".toList
      else if p = "/b/dbak" then some "Y".toList else none
    writable := fun _ => true
    manifests := fun p => if p = "/b/manifest.json" then
        some ⟨"t1", [("/orig/a", "/b/bak1"), ("/orig/b", "/b/bak2")],
          [("/k1", "/b/dbak")]⟩
      else none
    dconf := fun _ => "" }

/-! ### Lemmas and claim theorems -/

/-! ### Basic character lemmas -/

theorem toLowerChar_sharp : toLowerChar '#' = '#' := by decide

theorem toLowerChar_eq_self (c : Char) (h : ¬(65 ≤ c.toNat ∧ c.toNat ≤ 90)) :
    toLowerChar c = c := by
  simp [toLowerChar, h]

theorem toNat_ofNat_of_lt (n : ℕ) (h : n < 128) :
    (Char.ofNat n).toNat = n := by
  have hv : n.isValidChar := Or.inl (by omega)
  simp [Char.ofNat, hv, Char.toNat]
  rfl

theorem toLowerChar_toNat (c : Char) :
    (toLowerChar c).toNat =
      if 65 ≤ c.toNat ∧ c.toNat ≤ 90 then c.toNat + 32 else c.toNat := by
  unfold toLowerChar
  split
  · next h => exact toNat_ofNat_of_lt _ (by omega)
  · rfl

theorem char_eq_of_toNat_eq {a b : Char} (h : a.toNat = b.toNat) : a = b := by
  have ha : Char.ofNat a.toNat = Char.ofNat b.toNat := by rw [h]
  rwa [Char.ofNat_toNat, Char.ofNat_toNat] at ha

theorem sharp_toNat : ('#' : Char).toNat = 35 := by decide

/-- `toLowerChar` maps a character to `'#'` only if it is `'#'` itself. -/
theorem toLowerChar_eq_sharp {c : Char} (h : toLowerChar c = '#') : c = '#' := by
  have hn := congrArg Char.toNat h
  rw [toLowerChar_toNat, sharp_toNat] at hn
  split at hn
  · omega
  · exact char_eq_of_toNat_eq (by rw [hn, sharp_toNat])

theorem toLowerChar_of_lowerHexDigit {c : Char} (h : isLowerHexDigit c = true) :
    toLowerChar c = c := by
  unfold isLowerHexDigit at h
  apply toLowerChar_eq_self
  simp only [Bool.or_eq_true, Bool.and_eq_true, decide_eq_true_eq] at h
  omega

theorem lowerHexDigit_ne_sharp {c : Char} (h : isLowerHexDigit c = true) :
    c ≠ '#' := by
  unfold isLowerHexDigit at h
  simp only [Bool.or_eq_true, Bool.and_eq_true, decide_eq_true_eq] at h
  intro he
  rw [he, sharp_toNat] at h
  omega

theorem toUpperChar_toNat (c : Char) :
    (toUpperChar c).toNat =
      if 97 ≤ c.toNat ∧ c.toNat ≤ 122 then c.toNat - 32 else c.toNat := by
  unfold toUpperChar
  split
  · next h => exact toNat_ofNat_of_lt _ (by omega)
  · rfl

/-- Uppercasing a lowercase hex digit gives back the digit after lowercasing. -/
theorem toLower_toUpper_of_lowerHexDigit {c : Char}
    (h : isLowerHexDigit c = true) : toLowerChar (toUpperChar c) = c := by
  unfold isLowerHexDigit at h
  simp only [Bool.or_eq_true, Bool.and_eq_true, decide_eq_true_eq] at h
  apply char_eq_of_toNat_eq
  rcases h with h | h
  · have hu : (toUpperChar c).toNat = c.toNat := by
      rw [toUpperChar_toNat, if_neg (by omega)]
    rw [toLowerChar_toNat, hu, if_neg (by omega)]
  · have hu : (toUpperChar c).toNat = c.toNat - 32 := by
      rw [toUpperChar_toNat, if_pos (by omega)]
    rw [toLowerChar_toNat, hu, if_pos (by omega)]
    omega

/-- Uppercasing a lowercase hex digit never yields `'#'`. -/
theorem toUpper_lowerHexDigit_ne_sharp {c : Char}
    (h : isLowerHexDigit c = true) : toUpperChar c ≠ '#' := by
  unfold isLowerHexDigit at h
  simp only [Bool.or_eq_true, Bool.and_eq_true, decide_eq_true_eq] at h
  intro he
  have hn := congrArg Char.toNat he
  rw [toUpperChar_toNat, sharp_toNat] at hn
  split at hn <;> omega

theorem findKey_matches {m : ColorMap} {cs : List Char} {k : Hex}
    (h : findKey m cs = some k) : matchesKey k cs = true := by
  induction m with
  | nil => simp [findKey] at h
  | cons p rest ih =>
    unfold findKey at h
    split at h
    · next hm => cases h; exact hm
    · exact ih h

theorem findKey_mem {m : ColorMap} {cs : List Char} {k : Hex}
    (h : findKey m cs = some k) : ∃ v, (k, v) ∈ m := by
  induction m with
  | nil => simp [findKey] at h
  | cons p rest ih =>
    unfold findKey at h
    split at h
    · cases h; exact ⟨p.2, List.mem_cons_self _ _⟩
    · obtain ⟨v, hv⟩ := ih h; exact ⟨v, List.mem_cons_of_mem _ hv⟩

theorem findKey_none_iff {m : ColorMap} {cs : List Char} :
    findKey m cs = none ↔ ∀ kv ∈ m, matchesKey kv.1 cs = false := by
  induction m with
  | nil => simp [findKey]
  | cons p rest ih =>
    by_cases hm : matchesKey p.1 cs = true
    · simp only [findKey, if_pos hm]
      constructor
      · intro h; exact absurd h (by simp)
      · intro h
        have := h p (List.mem_cons_self _ _)
        rw [hm] at this
        exact absurd this (by simp)
    · have hm' : matchesKey p.1 cs = false := by
        simpa using hm
      simp only [findKey, if_neg hm, List.forall_mem_cons, hm', true_and]
      exact ih

theorem matchesKey_length_le {k : Hex} {cs : List Char}
    (h : matchesKey k cs = true) : 1 ≤ k.length ∧ k.length ≤ cs.length := by
  unfold matchesKey at h
  simp only [Bool.and_eq_true, decide_eq_true_eq, Bool.not_eq_true',
    List.isEmpty_eq_false_iff_exists_mem, beq_iff_eq] at h
  obtain ⟨⟨hne, hle⟩, _⟩ := h
  refine ⟨?_, hle⟩
  cases k with
  | nil => simp [List.isEmpty] at hne
  | cons a l => simp

theorem recolorFuel_succ_cons_eta (m : ColorMap) (f : ℕ) (c : Char)
    (cs' : List Char) :
    recolorFuel m (f + 1) (c :: cs') =
      match findKey m (c :: cs') with
      | some k => substHere m ((c :: cs').take k.length) ++
          recolorFuel m f (cs'.drop (k.length - 1))
      | none => c :: recolorFuel m f cs' := rfl

theorem recolorFuel_succ_cons_match {m : ColorMap} {c : Char}
    {cs' : List Char} {k : Hex} (f : ℕ) (h : findKey m (c :: cs') = some k) :
    recolorFuel m (f + 1) (c :: cs') =
      substHere m ((c :: cs').take k.length) ++
        recolorFuel m f (cs'.drop (k.length - 1)) := by
  rw [recolorFuel_succ_cons_eta, h]

theorem recolorFuel_succ_cons_nomatch {m : ColorMap} {c : Char}
    {cs' : List Char} (f : ℕ) (h : findKey m (c :: cs') = none) :
    recolorFuel m (f + 1) (c :: cs') = c :: recolorFuel m f cs' := by
  rw [recolorFuel_succ_cons_eta, h]

theorem drop_pred_length_le {α : Type} (cs' : List α) (n : ℕ) :
    (cs'.drop n).length ≤ cs'.length := by
  rw [List.length_drop]; omega

/-- Fuel does not matter as long as it is at least the text length. -/
theorem recolorFuel_fuel_irrel (m : ColorMap) :
    ∀ fuel₁ fuel₂ cs, cs.length ≤ fuel₁ → cs.length ≤ fuel₂ →
      recolorFuel m fuel₁ cs = recolorFuel m fuel₂ cs := by
  intro fuel₁
  induction fuel₁ with
  | zero =>
    intro fuel₂ cs h₁ _
    have : cs = [] := List.eq_nil_of_length_eq_zero (Nat.le_zero.mp h₁)
    subst this
    cases fuel₂ <;> rfl
  | succ f ih =>
    intro fuel₂ cs h₁ h₂
    cases cs with
    | nil => cases fuel₂ <;> rfl
    | cons c cs' =>
      cases fuel₂ with
      | zero => simp at h₂
      | succ f₂ =>
        have hc₁ : cs'.length ≤ f := by simpa using h₁
        have hc₂ : cs'.length ≤ f₂ := by simpa using h₂
        cases hf : findKey m (c :: cs') with
        | some k =>
          rw [recolorFuel_succ_cons_match f hf,
            recolorFuel_succ_cons_match f₂ hf]
          congr 1
          exact ih f₂ _ ((drop_pred_length_le _ _).trans hc₁)
            ((drop_pred_length_le _ _).trans hc₂)
        | none =>
          rw [recolorFuel_succ_cons_nomatch f hf,
            recolorFuel_succ_cons_nomatch f₂ hf]
          congr 1
          exact ih f₂ _ hc₁ hc₂

theorem recolorChars_nil (m : ColorMap) : recolorChars m [] = [] := rfl

/-- Unfolding equation for the scanner at a matching position. -/
theorem recolorChars_cons_match {m : ColorMap} {c : Char} {cs' : List Char}
    {k : Hex} (h : findKey m (c :: cs') = some k) :
    recolorChars m (c :: cs') =
      substHere m ((c :: cs').take k.length) ++
        recolorChars m ((c :: cs').drop k.length) := by
  have hk := matchesKey_length_le (findKey_matches h)
  have hdrop : (c :: cs').drop k.length = cs'.drop (k.length - 1) := by
    cases k with
    | nil => simp at hk
    | cons a l => simp [List.drop]
  unfold recolorChars
  rw [show (c :: cs').length = cs'.length + 1 from rfl,
    recolorFuel_succ_cons_match cs'.length h, hdrop]
  congr 1
  apply recolorFuel_fuel_irrel
  · exact drop_pred_length_le _ _
  · exact le_refl _

/-- Unfolding equation for the scanner at a non-matching position. -/
theorem recolorChars_cons_nomatch {m : ColorMap} {c : Char} {cs' : List Char}
    (h : findKey m (c :: cs') = none) :
    recolorChars m (c :: cs') = c :: recolorChars m cs' := by
  unfold recolorChars
  rw [show (c :: cs').length = cs'.length + 1 from rfl,
    recolorFuel_succ_cons_nomatch cs'.length h]

theorem isLowerHex7_elim {x : Hex} (h : isLowerHex7 x = true) :
    ∃ ds, x = '#' :: ds ∧ ds.length = 6 ∧ ∀ c ∈ ds, isLowerHexDigit c = true := by
  match x with
  | [] => simp [isLowerHex7] at h
  | c :: ds =>
    unfold isLowerHex7 at h
    split at h
    · next heq =>
      cases heq
      simp only [Bool.and_eq_true, beq_iff_eq, List.all_eq_true] at h
      exact ⟨ds, rfl, h.1, h.2⟩
    · next hne => simp at h

theorem isLowerHex7_length {x : Hex} (h : isLowerHex7 x = true) :
    x.length = 7 := by
  obtain ⟨ds, rfl, hl, _⟩ := isLowerHex7_elim h
  simp [hl]

theorem map_id_of_all {α : Type} {f : α → α} :
    ∀ l : List α, (∀ c ∈ l, f c = c) → l.map f = l := by
  intro l
  induction l with
  | nil => intro _; rfl
  | cons a t ih =>
    intro h
    simp only [List.map_cons, h a (List.mem_cons_self _ _),
      ih fun c hc => h c (List.mem_cons_of_mem _ hc)]

theorem lowerList_fix {x : Hex} (h : isLowerHex7 x = true) :
    lowerList x = x := by
  obtain ⟨ds, rfl, _, hds⟩ := isLowerHex7_elim h
  unfold lowerList
  simp only [List.map_cons, toLowerChar_sharp, List.cons.injEq, true_and]
  exact map_id_of_all ds fun c hc => toLowerChar_of_lowerHexDigit (hds c hc)

theorem lookupHex_of_mem {m : ColorMap} {k : Hex}
    (h : ∃ v₀, (k, v₀) ∈ m) : ∃ v, lookupHex m k = some v ∧ (k, v) ∈ m := by
  induction m with
  | nil => simp at h
  | cons p rest ih =>
    by_cases hp : p.1 = k
    · refine ⟨p.2, ?_, ?_⟩
      · unfold lookupHex; rw [if_pos hp]
      · rw [← hp]; exact List.mem_cons_self _ _
    · obtain ⟨v₀, hv₀⟩ := h
      rcases List.mem_cons.mp hv₀ with he | hmem
      · exact absurd (congrArg Prod.fst he.symm) hp
      · obtain ⟨v, hl, hm'⟩ := ih ⟨v₀, hmem⟩
        refine ⟨v, ?_, List.mem_cons_of_mem _ hm'⟩
        unfold lookupHex; rw [if_neg hp]; exact hl

theorem matchesKey_iff {k cs : List Char} :
    matchesKey k cs = true ↔
      k ≠ [] ∧ k.length ≤ cs.length ∧
        (cs.take k.length).map toLowerChar = k.map toLowerChar := by
  unfold matchesKey
  simp only [Bool.and_eq_true, Bool.not_eq_true', List.isEmpty_eq_false,
    decide_eq_true_eq, beq_iff_eq]
  tauto

/-- No key can match at a position whose first character is not `'#'`:
every key of a well-formed map starts with `'#'`. -/
theorem findKey_none_of_head {m : ColorMap} (hm : GoodMap m) {c : Char}
    {rest : List Char} (hc : c ≠ '#') : findKey m (c :: rest) = none := by
  rw [findKey_none_iff]
  intro kv hkv
  cases hb : matchesKey kv.1 (c :: rest) with
  | false => rfl
  | true =>
    exfalso
    obtain ⟨ds, hk, hdl, _⟩ := isLowerHex7_elim (hm kv hkv).1
    obtain ⟨_, _, hmap⟩ := matchesKey_iff.mp hb
    rw [hk] at hmap
    have hlen : (('#' :: ds) : List Char).length = 6 + 1 := by simp [hdl]
    rw [hlen] at hmap
    simp only [List.take_succ_cons, List.map_cons] at hmap
    have : toLowerChar c = toLowerChar '#' := (List.cons.injEq _ _ _ _ ▸ hmap).1
    rw [toLowerChar_sharp] at this
    exact hc (toLowerChar_eq_sharp this)

/-- What one successful match emits: a 7-character block starting with `'#'`,
whose other characters are never `'#'`, and which lowercases to a map value. -/
theorem recolor_match_decomp {m : ColorMap} (hm : GoodMap m) {c : Char}
    {cs' : List Char} {k : Hex} (h : findKey m (c :: cs') = some k) :
    ∃ w v, (k, v) ∈ m ∧
      recolorChars m (c :: cs') = w ++ recolorChars m ((c :: cs').drop 7) ∧
      w.length = 7 ∧ w.head? = some '#' ∧ (∀ x ∈ w.drop 1, x ≠ '#') ∧
      lowerList w = v ∧ k.length = 7 := by
  obtain ⟨v₀, hv₀⟩ := findKey_mem h
  have hk7 : isLowerHex7 k = true := (hm (k, v₀) hv₀).1
  have hklen : k.length = 7 := isLowerHex7_length hk7
  have hmk := matchesKey_iff.mp (findKey_matches h)
  obtain ⟨-, hle, hmap⟩ := hmk
  have hlowt : lowerList ((c :: cs').take k.length) = k := by
    unfold lowerList
    rw [hmap]
    exact lowerList_fix hk7
  obtain ⟨v, hlook, hmem⟩ := lookupHex_of_mem ⟨v₀, hv₀⟩
  have hv7 : isLowerHex7 v = true := (hm (k, v) hmem).2
  obtain ⟨ds, hveq, hdsl, hds⟩ := isLowerHex7_elim hv7
  have hsub : substHere m ((c :: cs').take k.length) =
      if pyIsUpper (((c :: cs').take k.length).drop 1)
        then '#' :: (v.drop 1).map toUpperChar else v := by
    unfold substHere
    rw [hlowt]
    simp only [hlook, Option.getD_some]
  refine ⟨substHere m ((c :: cs').take k.length), v, hmem, ?_, ?_, ?_, ?_, ?_,
    hklen⟩
  · rw [recolorChars_cons_match h, hklen]
  · rw [hsub]
    split
    · simp [hveq, hdsl]
    · rw [hveq]; simp [hdsl]
  · rw [hsub]
    split
    · rfl
    · rw [hveq]; rfl
  · rw [hsub]
    split
    · intro x hx
      simp only [List.drop_succ_cons, List.drop_zero] at hx
      rw [hveq] at hx
      simp only [List.drop_succ_cons, List.drop_zero] at hx
      obtain ⟨d, hd, rfl⟩ := List.mem_map.mp hx
      exact toUpper_lowerHexDigit_ne_sharp (hds d hd)
    · intro x hx
      rw [hveq] at hx
      simp only [List.drop_succ_cons, List.drop_zero] at hx
      exact lowerHexDigit_ne_sharp (hds x hx)
  · rw [hsub]
    split
    · rw [hveq]
      unfold lowerList
      simp only [List.drop_succ_cons, List.drop_zero, List.map_cons,
        toLowerChar_sharp, List.map_map, List.cons.injEq, true_and]
      exact map_id_of_all ds fun d hd => by
        show toLowerChar (toUpperChar d) = d
        exact toLower_toUpper_of_lowerHexDigit (hds d hd)
    · exact lowerList_fix hv7

/-- The substitution pass preserves the text length (every key and every
emitted block is 7 characters long). -/
theorem recolor_length {m : ColorMap} (hm : GoodMap m) :
    ∀ n cs, cs.length ≤ n → (recolorChars m cs).length = cs.length := by
  intro n
  induction n with
  | zero =>
    intro cs h
    have : cs = [] := List.eq_nil_of_length_eq_zero (Nat.le_zero.mp h)
    subst this; rfl
  | succ n ih =>
    intro cs h
    cases cs with
    | nil => rfl
    | cons c cs' =>
      cases hf : findKey m (c :: cs') with
      | some k =>
        obtain ⟨w, v, _, heq, hwl, _, _, _, hkl⟩ := recolor_match_decomp hm hf
        rw [heq]
        have hle := (matchesKey_length_le (findKey_matches hf)).2
        rw [hkl] at hle
        have : ((c :: cs').drop 7).length ≤ n := by
          simp only [List.length_drop]
          simp only [List.length_cons] at h ⊢
          omega
        rw [List.length_append, hwl, ih _ this, List.length_drop]
        simp only [List.length_cons] at hle ⊢
        omega
      | none =>
        rw [recolorChars_cons_nomatch hf]
        simp only [List.length_cons]
        rw [ih cs' (by simpa using h)]

/-- If the first `n` characters of the output contain no `'#'`, they are
exactly the first `n` characters of the input (replacement blocks always
start with `'#'`). -/
theorem recolor_take_eq {m : ColorMap} (hm : GoodMap m) :
    ∀ fuel cs n, cs.length ≤ fuel →
      (∀ x ∈ (recolorChars m cs).take n, x ≠ '#') →
      (recolorChars m cs).take n = cs.take n := by
  intro fuel
  induction fuel with
  | zero =>
    intro cs n h _
    have : cs = [] := List.eq_nil_of_length_eq_zero (Nat.le_zero.mp h)
    subst this; rfl
  | succ f ih =>
    intro cs n h hsharp
    cases cs with
    | nil => rfl
    | cons c cs' =>
      cases n with
      | zero => simp
      | succ n' =>
        cases hf : findKey m (c :: cs') with
        | some k =>
          exfalso
          obtain ⟨w, v, _, heq, hwl, hwh, _, _, _⟩ :=
            recolor_match_decomp hm hf
          cases w with
          | nil => simp at hwl
          | cons w0 w' =>
            have hw0 : w0 = '#' := by
              simpa using hwh
            apply hsharp '#'
            · rw [heq, hw0]
              simp [List.take_succ_cons]
            · rfl
        | none =>
          rw [recolorChars_cons_nomatch hf] at hsharp ⊢
          simp only [List.take_succ_cons]
          have hc : c ≠ '#' := hsharp c (by simp)
          have : ∀ x ∈ (recolorChars m cs').take n', x ≠ '#' := by
            intro x hx
            exact hsharp x (by simp [List.take_succ_cons, hx])
          rw [ih cs' n' (by simpa using h) this]

theorem findKey_nil {m : ColorMap} : findKey m [] = none := by
  rw [findKey_none_iff]
  intro kv _
  cases hb : matchesKey kv.1 [] with
  | false => rfl
  | true =>
    obtain ⟨hne, hlen, _⟩ := matchesKey_iff.mp hb
    exact absurd (List.eq_nil_of_length_eq_zero (Nat.le_zero.mp hlen)) hne

/-- After one pass over a well-formed map whose values are not keys, no key
of the map matches anywhere in the output. -/
theorem findKey_recolor_none {m : ColorMap} (hm : GoodMap m)
    (hvk : ValuesNotKeys m) :
    ∀ fuel cs, cs.length ≤ fuel → ∀ i,
      findKey m ((recolorChars m cs).drop i) = none := by
  intro fuel
  induction fuel with
  | zero =>
    intro cs h i
    have : cs = [] := List.eq_nil_of_length_eq_zero (Nat.le_zero.mp h)
    subst this
    simpa [recolorChars_nil] using findKey_nil
  | succ f ih =>
    intro cs h i
    cases cs with
    | nil => simpa [recolorChars_nil] using findKey_nil
    | cons c cs' =>
      cases hf : findKey m (c :: cs') with
      | some k =>
        obtain ⟨w, v, hmem, heq, hwl, hwh, hwd, hwlow, hkl⟩ :=
          recolor_match_decomp hm hf
        rw [heq]
        rcases Nat.lt_or_ge i 7 with hi7 | hi7
        · rcases Nat.eq_zero_or_pos i with hi0 | hi0
          · subst hi0
            simp only [List.drop_zero]
            rw [findKey_none_iff]
            intro kv hkv
            cases hb : matchesKey kv.1 (w ++ recolorChars m ((c :: cs').drop 7)) with
            | false => rfl
            | true =>
              exfalso
              obtain ⟨-, -, hmap⟩ := matchesKey_iff.mp hb
              have hk'7 : kv.1.length = 7 :=
                isLowerHex7_length (hm kv hkv).1
              rw [hk'7, ← hwl, List.take_left] at hmap
              have : v = kv.1 := by
                rw [← hwlow]
                unfold lowerList
                rw [hmap]
                exact lowerList_fix (hm kv hkv).1
              exact hvk (k, v) hmem kv hkv this
          · -- 1 ≤ i ≤ 6 : position inside the emitted block, not at `'#'`
            have hiw : i < w.length := by omega
            have hdrop : (w ++ recolorChars m ((c :: cs').drop 7)).drop i =
                w[i] :: (w.drop (i + 1) ++ recolorChars m ((c :: cs').drop 7)) := by
              rw [List.drop_append_eq_append_drop,
                List.drop_eq_getElem_cons hiw]
              have : i - w.length = 0 := by omega
              rw [this, List.drop_zero]
              rfl
            rw [hdrop]
            apply findKey_none_of_head hm
            have hmemw : w[i] ∈ w.drop 1 := by
              have hdi := List.drop_eq_getElem_cons hiw
              have hdd : (w.drop 1).drop (i - 1) = w.drop i := by
                rw [List.drop_drop]
                congr 1
                omega
              apply List.drop_subset (i - 1) (w.drop 1)
              rw [hdd, hdi]
              exact List.mem_cons_self _ _
            exact hwd _ hmemw
        · -- i ≥ 7 : strictly inside the recursively rewritten tail
          have hdrop : (w ++ recolorChars m ((c :: cs').drop 7)).drop i =
              (recolorChars m ((c :: cs').drop 7)).drop (i - 7) := by
            rw [List.drop_append_eq_append_drop]
            have h1 : w.drop i = [] := by
              apply List.drop_eq_nil_of_le
              omega
            rw [h1, hwl, List.nil_append]
          rw [hdrop]
          apply ih
          simp only [List.length_drop, List.length_cons]
          simp only [List.length_cons] at h
          omega
      | none =>
        rw [recolorChars_cons_nomatch hf]
        cases i with
        | succ i' =>
          simp only [List.drop_succ_cons]
          exact ih cs' (by simpa using h) i'
        | zero =>
          simp only [List.drop_zero]
          by_cases hc : c = '#'
          · subst hc
            rw [findKey_none_iff]
            intro kv hkv
            cases hb : matchesKey kv.1 ('#' :: recolorChars m cs') with
            | false => rfl
            | true =>
              exfalso
              obtain ⟨ds, hkeq, hdsl, hds⟩ := isLowerHex7_elim (hm kv hkv).1
              obtain ⟨-, hlen, hmap⟩ := matchesKey_iff.mp hb
              have h7 : kv.1.length = 7 := isLowerHex7_length (hm kv hkv).1
              rw [h7] at hlen hmap
              have hout : (recolorChars m cs').length = cs'.length :=
                recolor_length hm cs'.length cs' le_rfl
              have hcs6 : 6 ≤ cs'.length := by
                simp only [List.length_cons] at hlen
                omega
              have htake7 : (('#' :: recolorChars m cs') : List Char).take 7 =
                  '#' :: (recolorChars m cs').take 6 := rfl
              rw [htake7] at hmap
              have hmap' : (((recolorChars m cs').take 6).map toLowerChar) =
                  ds := by
                have hlow : kv.1.map toLowerChar = kv.1 :=
                  lowerList_fix (hm kv hkv).1
                rw [hlow, hkeq] at hmap
                simpa [toLowerChar_sharp] using hmap
              have hnosharp : ∀ x ∈ (recolorChars m cs').take 6, x ≠ '#' := by
                intro x hx hxe
                have hmem : toLowerChar x ∈ ds := by
                  rw [← hmap']
                  exact List.mem_map_of_mem _ hx
                have hld := hds _ hmem
                rw [hxe, toLowerChar_sharp] at hld
                exact absurd hld (by decide)
              have htake : (recolorChars m cs').take 6 = cs'.take 6 :=
                recolor_take_eq hm cs'.length cs' 6 le_rfl hnosharp
              have hmk : matchesKey kv.1 ('#' :: cs') = true := by
                rw [matchesKey_iff]
                refine ⟨by rw [hkeq]; simp, ?_, ?_⟩
                · rw [h7]
                  simp only [List.length_cons]
                  omega
                · rw [h7]
                  have ht7 : (('#' :: cs') : List Char).take 7 =
                      '#' :: cs'.take 6 := rfl
                  have hlowk : List.map toLowerChar kv.1 = kv.1 :=
                    lowerList_fix (hm kv hkv).1
                  rw [ht7, hlowk, hkeq]
                  simp only [List.map_cons, toLowerChar_sharp,
                    List.cons.injEq, true_and]
                  rw [← htake, hmap']
              have := findKey_none_iff.mp hf kv hkv
              rw [hmk] at this
              exact absurd this (by simp)
          · exact findKey_none_of_head hm hc

/-- A text in which no key matches anywhere is left unchanged by the pass. -/
theorem recolor_eq_self_of_no_match {m : ColorMap} :
    ∀ cs, (∀ i, findKey m (cs.drop i) = none) → recolorChars m cs = cs := by
  intro cs
  induction cs with
  | nil => intro _; rfl
  | cons c cs' ih =>
    intro h
    have h0 := h 0
    simp only [List.drop_zero] at h0
    rw [recolorChars_cons_nomatch h0, ih fun i => by simpa using h (i + 1)]

/-- Core idempotence property: one pass over a well-formed map whose values
are not keys reaches a fixed point of the pass. -/
theorem recolor_idem {m : ColorMap} (hm : GoodMap m) (hvk : ValuesNotKeys m)
    (cs : List Char) :
    recolorChars m (recolorChars m cs) = recolorChars m cs :=
  recolor_eq_self_of_no_match _
    (findKey_recolor_none hm hvk cs.length cs le_rfl)

theorem toLower_hexDigit {c : Char} (h : isHexDigitChar c = true) :
    isLowerHexDigit (toLowerChar c) = true := by
  unfold isHexDigitChar at h
  unfold isLowerHexDigit
  simp only [Bool.or_eq_true, Bool.and_eq_true, decide_eq_true_eq] at h ⊢
  rw [toLowerChar_toNat]
  rcases h with (h | h) | h
  · rw [if_neg (by omega)]; omega
  · rw [if_neg (by omega)]; omega
  · rw [if_pos (by omega)]; omega

theorem isHex7_elim {x : Hex} (h : isHex7 x = true) :
    ∃ ds, x = '#' :: ds ∧ ds.length = 6 ∧ ∀ c ∈ ds, isHexDigitChar c = true := by
  match x with
  | [] => simp [isHex7] at h
  | c :: ds =>
    unfold isHex7 at h
    split at h
    · next heq =>
      cases heq
      simp only [Bool.and_eq_true, beq_iff_eq, List.all_eq_true] at h
      exact ⟨ds, rfl, h.1, h.2⟩
    · next hne => simp at h

theorem isLowerHex7_intro {ds : List Char} (hl : ds.length = 6)
    (hd : ∀ c ∈ ds, isLowerHexDigit c = true) :
    isLowerHex7 ('#' :: ds) = true := by
  unfold isLowerHex7
  simp only [Bool.and_eq_true, beq_iff_eq, List.all_eq_true]
  exact ⟨hl, hd⟩

theorem isHex7_lowerList {x : Hex} (h : isHex7 x = true) :
    isLowerHex7 (lowerList x) = true := by
  obtain ⟨ds, rfl, hl, hd⟩ := isHex7_elim h
  unfold lowerList
  rw [List.map_cons, toLowerChar_sharp]
  apply isLowerHex7_intro
  · simp [hl]
  · intro c hc
    obtain ⟨d, hdm, rfl⟩ := List.mem_map.mp hc
    exact toLower_hexDigit (hd d hdm)

theorem lookupTok_mem {p : Palette} {t v : String}
    (h : lookupTok p t = some v) : (t, v) ∈ p := by
  induction p with
  | nil => simp [lookupTok] at h
  | cons q rest ih =>
    unfold lookupTok at h
    split at h
    · next he => cases h; rw [← he]; exact List.mem_cons_self _ _
    · exact List.mem_cons_of_mem _ (ih h)

theorem dictInsert_goodNe {m : ColorMap} {k v : Hex} (hm : GoodNeMap m)
    (hk : isLowerHex7 k = true) (hv : isLowerHex7 v = true) (hne : k ≠ v) :
    GoodNeMap (dictInsert m k v) := by
  unfold dictInsert
  split
  · intro kv hkv
    obtain ⟨p, hp, rfl⟩ := List.mem_map.mp hkv
    by_cases he : p.1 = k
    · rw [if_pos he]
      exact ⟨⟨hk, hv⟩, hne⟩
    · rw [if_neg he]
      exact hm p hp
  · intro kv hkv
    rcases List.mem_append.mp hkv with hkv | hkv
    · exact hm kv hkv
    · rcases List.mem_singleton.mp hkv with rfl
      exact ⟨⟨hk, hv⟩, hne⟩

theorem buildDirect_goodNe {old new : Palette} (hold : PaletteWF old)
    (hnew : PaletteWF new) : GoodNeMap (buildDirect old new) := by
  unfold buildDirect
  have main : ∀ (l : Palette), (∀ kv ∈ l, isHex7 kv.2.toList = true) →
      ∀ acc, GoodNeMap acc → GoodNeMap (l.foldl
        (fun acc kv =>
          match lookupTok new kv.1 with
          | some nv =>
            let oh := lowerList kv.2.toList
            let nh := lowerList nv.toList
            if oh ≠ nh then dictInsert acc oh nh else acc
          | none => acc) acc) := by
    intro l
    induction l with
    | nil => intro _ acc hacc; exact hacc
    | cons q rest ih =>
      intro hl acc hacc
      simp only [List.foldl_cons]
      apply ih fun kv hkv => hl kv (List.mem_cons_of_mem _ hkv)
      cases hlook : lookupTok new q.1 with
      | none => exact hacc
      | some nv =>
        simp only []
        split
        · next hne =>
          exact dictInsert_goodNe hacc
            (isHex7_lowerList (hl q (List.mem_cons_self _ _)))
            (isHex7_lowerList (hnew (q.1, nv) (lookupTok_mem hlook)))
            hne
        · exact hacc
  exact main old hold [] (by intro kv hkv; simp at hkv)

theorem digitChar_isLowerHex {n : ℕ} (h : n ≤ 15) :
    isLowerHexDigit (digitChar n) = true := by
  unfold digitChar isLowerHexDigit
  simp only [Bool.or_eq_true, Bool.and_eq_true, decide_eq_true_eq]
  split
  · next h10 =>
    rw [toNat_ofNat_of_lt _ (by omega)]
    omega
  · next h10 =>
    rw [toNat_ofNat_of_lt _ (by omega)]
    omega

theorem clamp255_le (i : ℤ) : clamp255 i ≤ 255 := by
  unfold clamp255
  omega

theorem toHex2_lower {n : ℕ} (h : n ≤ 255) :
    ∀ c ∈ toHex2 n, isLowerHexDigit c = true := by
  intro c hc
  unfold toHex2 at hc
  rcases List.mem_cons.mp hc with rfl | hc
  · exact digitChar_isLowerHex (by omega)
  · rcases List.mem_singleton.mp (by simpa using hc) with rfl
    exact digitChar_isLowerHex (by omega)

theorem hsl_to_hex_isLowerHex7 (h s l : ℚ) :
    isLowerHex7 (hsl_to_hex h s l) = true := by
  unfold hsl_to_hex
  apply isLowerHex7_intro
  · simp [toHex2]
  · intro c hc
    rcases List.mem_append.mp hc with hc | hc
    · rcases List.mem_append.mp hc with hc | hc
      · exact toHex2_lower (clamp255_le _) c hc
      · exact toHex2_lower (clamp255_le _) c hc
    · exact toHex2_lower (clamp255_le _) c hc

theorem findHexes_lower {s : List Char} {hx : Hex} (h : hx ∈ findHexes s) :
    isLowerHex7 hx = true := by
  unfold findHexes at h
  obtain ⟨i, _, hi⟩ := List.mem_filterMap.mp h
  split at hi
  · next hmatch =>
    cases hi
    set t := s.drop i with ht
    unfold hexMatchHere at hmatch
    simp only [Bool.and_eq_true, decide_eq_true_eq, Bool.not_eq_true'] at hmatch
    obtain ⟨⟨⟨⟨⟨⟨⟨h0, h1⟩, h2⟩, h3⟩, h4⟩, h5⟩, h6⟩, -⟩ := hmatch
    match t, h0 with
    | c0 :: c1 :: c2 :: c3 :: c4 :: c5 :: c6 :: rest, h0 =>
      simp only [List.getD_cons_zero] at h0
      simp only [List.getD_cons_succ, List.getD_cons_zero] at h1 h2 h3 h4 h5 h6
      subst h0
      show isLowerHex7 (lowerList ('#' :: [c1, c2, c3, c4, c5, c6])) = true
      unfold lowerList
      rw [List.map_cons, toLowerChar_sharp]
      apply isLowerHex7_intro
      · simp
      · intro c hc
        simp only [List.mem_map, List.mem_cons, List.not_mem_nil, or_false] at hc
        obtain ⟨d, hd, rfl⟩ := hc
        rcases hd with rfl | rfl | rfl | rfl | rfl | rfl <;>
          first
          | exact toLower_hexDigit h1
          | exact toLower_hexDigit h2
          | exact toLower_hexDigit h3
          | exact toLower_hexDigit h4
          | exact toLower_hexDigit h5
          | exact toLower_hexDigit h6
    | [], h0 => exact absurd h0 (by decide)
    | [c0], h0 => simp only [List.getD_cons_succ] at h1; exact absurd h1 (by decide)
    | [c0, c1], h0 => simp only [List.getD_cons_succ] at h2; exact absurd h2 (by decide)
    | [c0, c1, c2], h0 => simp only [List.getD_cons_succ] at h3; exact absurd h3 (by decide)
    | [c0, c1, c2, c3], h0 => simp only [List.getD_cons_succ] at h4; exact absurd h4 (by decide)
    | [c0, c1, c2, c3, c4], h0 => simp only [List.getD_cons_succ] at h5; exact absurd h5 (by decide)
    | [c0, c1, c2, c3, c4, c5], h0 => simp only [List.getD_cons_succ] at h6; exact absurd h6 (by decide)
  · exact absurd hi (by simp)

theorem insertUnique_mem {acc : List Hex} {h hx : Hex}
    (hmem : hx ∈ insertUnique acc h) : hx ∈ acc ∨ hx = h := by
  unfold insertUnique at hmem
  split at hmem
  · exact Or.inl hmem
  · rcases List.mem_append.mp hmem with hm | hm
    · exact Or.inl hm
    · exact Or.inr (List.mem_singleton.mp hm)

theorem collectHexes_lower {files : List (Option (List Char))} {hx : Hex}
    (h : hx ∈ collectHexes files) : isLowerHex7 hx = true := by
  unfold collectHexes at h
  have main : ∀ (l : List (Option (List Char))) (acc : List Hex),
      (∀ y ∈ acc, isLowerHex7 y = true) →
      ∀ y ∈ l.foldl (fun acc of =>
        match of with
        | some s => (findHexes s).foldl insertUnique acc
        | none => acc) acc, isLowerHex7 y = true := by
    intro l
    induction l with
    | nil => intro acc hacc y hy; exact hacc y hy
    | cons of rest ih =>
      intro acc hacc y hy
      simp only [List.foldl_cons] at hy
      cases of with
      | none => exact ih acc hacc y hy
      | some s =>
        refine ih _ ?_ y hy
        have inner : ∀ (hl : List Hex) (acc' : List Hex),
            (∀ z ∈ acc', isLowerHex7 z = true) →
            (∀ z ∈ hl, isLowerHex7 z = true) →
            ∀ z ∈ hl.foldl insertUnique acc', isLowerHex7 z = true := by
          intro hl
          induction hl with
          | nil => intro acc' hacc' _ z hz; exact hacc' z hz
          | cons a t ihh =>
            intro acc' hacc' hhl z hz
            simp only [List.foldl_cons] at hz
            refine ihh _ ?_ (fun w hw => hhl w (List.mem_cons_of_mem _ hw)) z hz
            intro w hw
            rcases insertUnique_mem hw with hw | rfl
            · exact hacc' w hw
            · exact hhl w (List.mem_cons_self _ _)
        exact inner (findHexes s) acc hacc
          (fun z hz => findHexes_lower hz)
  exact main files [] (by intro y hy; simp at hy) hx h

theorem shiftHex_eq (oldHue shift : ℚ) (hx : Hex) :
    shiftHex oldHue shift hx =
      if circHueDist (hex_to_hsl hx).1 oldHue ≤ 35 ∧
          (hex_to_hsl hx).2.1 > 1/20 then
        if hsl_to_hex (pyMod360 ((hex_to_hsl hx).1 + shift))
            (hex_to_hsl hx).2.1 (hex_to_hsl hx).2.2 ≠ hx then
          some (hsl_to_hex (pyMod360 ((hex_to_hsl hx).1 + shift))
            (hex_to_hsl hx).2.1 (hex_to_hsl hx).2.2)
        else none
      else none := rfl

theorem shiftHex_some {oldHue shift : ℚ} {hx nh : Hex}
    (h : shiftHex oldHue shift hx = some nh) :
    circHueDist (hex_to_hsl hx).1 oldHue ≤ 35 ∧
      (hex_to_hsl hx).2.1 > 1/20 ∧ nh ≠ hx ∧ isLowerHex7 nh = true := by
  rw [shiftHex_eq] at h
  split at h
  · next hcond =>
    split at h
    · next hne =>
      cases h
      exact ⟨hcond.1, hcond.2, hne, hsl_to_hex_isLowerHex7 _ _ _⟩
    · exact absurd h (by simp)
  · exact absurd h (by simp)

theorem buildExtra_cons (tv : List Hex) (oldHue shift : ℚ) (m : ColorMap)
    (hx : Hex) (rest : List Hex) :
    buildExtra tv oldHue shift m (hx :: rest) =
      match extraSkip tv m hx, shiftHex oldHue shift hx with
      | true, _ => buildExtra tv oldHue shift m rest
      | false, some nh => buildExtra tv oldHue shift (m ++ [(hx, nh)]) rest
      | false, none => buildExtra tv oldHue shift m rest := rfl

theorem extraSkip_false_not_protected {tv : List Hex} {m : ColorMap}
    {hx : Hex} (h : extraSkip tv m hx = false) : hx ∉ PROTECTED_COLORS := by
  unfold extraSkip at h
  simp only [Bool.or_eq_false_iff, decide_eq_false_iff_not] at h
  exact h.1.2

/-- Every entry `buildExtra` adds beyond its accumulator comes from a
passing `shiftHex` test on a non-protected discovered color. -/
theorem buildExtra_mem {tv : List Hex} {oldHue shift : ℚ} :
    ∀ (hexes : List Hex) (m : ColorMap) (kv : Hex × Hex),
      kv ∈ buildExtra tv oldHue shift m hexes →
      kv ∈ m ∨ (kv.1 ∉ PROTECTED_COLORS ∧ shiftHex oldHue shift kv.1 = some kv.2) := by
  intro hexes
  induction hexes with
  | nil => intro m kv h; exact Or.inl h
  | cons hx rest ih =>
    intro m kv h
    rw [buildExtra_cons] at h
    cases hskip : extraSkip tv m hx with
    | true =>
      rw [hskip] at h
      exact ih m kv h
    | false =>
      cases hsh : shiftHex oldHue shift hx with
      | some nh =>
        rw [hskip, hsh] at h
        rcases ih _ kv h with hm | hcond
        · rcases List.mem_append.mp hm with hm | hm
          · exact Or.inl hm
          · rcases List.mem_singleton.mp hm with rfl
            exact Or.inr ⟨extraSkip_false_not_protected hskip, hsh⟩
        · exact Or.inr hcond
      | none =>
        rw [hskip, hsh] at h
        exact ih m kv h

/-- `buildExtra` preserves the entry invariant when the scanned colors are
well-formed lowercase literals. -/
theorem buildExtra_goodNe {tv : List Hex} {oldHue shift : ℚ} :
    ∀ (hexes : List Hex) (m : ColorMap), GoodNeMap m →
      (∀ hx ∈ hexes, isLowerHex7 hx = true) →
      GoodNeMap (buildExtra tv oldHue shift m hexes) := by
  intro hexes
  induction hexes with
  | nil => intro m hm _; exact hm
  | cons hx rest ih =>
    intro m hm hhx
    rw [buildExtra_cons]
    cases hskip : extraSkip tv m hx with
    | true => exact ih m hm fun y hy => hhx y (List.mem_cons_of_mem _ hy)
    | false =>
      cases hsh : shiftHex oldHue shift hx with
      | some nh =>
        apply ih _ ?_ fun y hy => hhx y (List.mem_cons_of_mem _ hy)
        intro kv hkv
        rcases List.mem_append.mp hkv with hkv | hkv
        · exact hm kv hkv
        · rcases List.mem_singleton.mp hkv with rfl
          obtain ⟨-, -, hne, hnh⟩ := shiftHex_some hsh
          exact ⟨⟨hhx hx (List.mem_cons_self _ _), hnh⟩, fun he => hne he.symm⟩
      | none =>
        exact ih m hm fun y hy => hhx y (List.mem_cons_of_mem _ hy)

theorem build_full_color_map_eq (old new : Palette)
    (files : List (Option (List Char))) :
    build_full_color_map old new files =
      if |hueShiftOf old new| < 1/2 then buildDirect old new
      else buildExtra (mapValues (buildDirect old new))
        (hex_to_hsl (primaryHex old)).1 (hueShiftOf old new)
        (buildDirect old new) (collectHexes files) := rfl

/-- Shape invariant of the complete map (shared by several claims). -/
theorem buildMap_goodNe {old new : Palette} {files : List (Option (List Char))}
    (hold : PaletteWF old) (hnew : PaletteWF new) :
    GoodNeMap (build_full_color_map old new files) := by
  rw [build_full_color_map_eq]
  split
  · exact buildDirect_goodNe hold hnew
  · exact buildExtra_goodNe _ _ (buildDirect_goodNe hold hnew)
      fun hx hhx => collectHexes_lower hhx

/-- Every entry of the complete map beyond the direct token diffs satisfies
the hue-window, saturation and protection tests (shared helper). -/
theorem buildMap_extra_prop {old new : Palette}
    {files : List (Option (List Char))} {kv : Hex × Hex}
    (h : kv ∈ build_full_color_map old new files)
    (hnd : kv ∉ buildDirect old new) :
    kv.1 ∉ PROTECTED_COLORS ∧
      circHueDist (hex_to_hsl kv.1).1 (hex_to_hsl (primaryHex old)).1 ≤ 35 ∧
      (hex_to_hsl kv.1).2.1 > 1/20 := by
  rw [build_full_color_map_eq] at h
  split at h
  · exact absurd h hnd
  · rcases buildExtra_mem _ _ kv h with hm | ⟨hp, hsh⟩
    · exact absurd hm hnd
    · obtain ⟨hd, hs, -, -⟩ := shiftHex_some hsh
      exact ⟨hp, hd, hs⟩

/-! ### Claim theorems -/

theorem toUpper_lowerHexDigit_not_lower {d : Char}
    (h : isLowerHexDigit d = true) : isLowerAlpha (toUpperChar d) = false := by
  unfold isLowerHexDigit at h
  unfold isLowerAlpha
  simp only [Bool.or_eq_true, Bool.and_eq_true, decide_eq_true_eq] at h
  simp only [Bool.and_eq_false_iff, decide_eq_false_iff_not]
  rw [toUpperChar_toNat]
  rcases h with h | h
  · rw [if_neg (by omega)]; omega
  · rw [if_pos (by omega)]; omega

theorem lowerHexDigit_not_upper {d : Char}
    (h : isLowerHexDigit d = true) : isUpperAlpha d = false := by
  unfold isLowerHexDigit at h
  unfold isUpperAlpha
  simp only [Bool.or_eq_true, Bool.and_eq_true, decide_eq_true_eq] at h
  simp only [Bool.and_eq_false_iff, decide_eq_false_iff_not]
  omega

/-- C9: every key and value of a map built by `build_full_color_map` from
well-formed palettes is a lowercase `#rrggbb` literal, and no key maps to
itself. -/
theorem C9_colorMap_invariant (old new : Palette)
    (files : List (Option (List Char)))
    (hold : PaletteWF old) (hnew : PaletteWF new) :
    ∀ kv ∈ build_full_color_map old new files,
      isLowerHex7 kv.1 = true ∧ isLowerHex7 kv.2 = true ∧ kv.1 ≠ kv.2 := by
  intro kv hkv
  obtain ⟨⟨h1, h2⟩, h3⟩ := buildMap_goodNe hold hnew kv hkv
  exact ⟨h1, h2, h3⟩

theorem C9_witness :
    PaletteWF [("primary", "#ffb86c")] ∧ PaletteWF [("primary", "#82b1ff")] ∧
    ∀ kv ∈ build_full_color_map [("primary", "#ffb86c")]
        [("primary", "#82b1ff")] [some ("#ffb86c #ffffff".toList)],
      isLowerHex7 kv.1 = true ∧ isLowerHex7 kv.2 = true ∧ kv.1 ≠ kv.2 :=
  ⟨by unfold PaletteWF; decide, by unfold PaletteWF; decide,
    C9_colorMap_invariant _ _ _ (by unfold PaletteWF; decide)
      (by unfold PaletteWF; decide)⟩

/-- C2 fails as stated: the direct token-diff entries of step 1 are not
checked against `PROTECTED_COLORS`.  With an old palette whose primary is
the protected success green `#a8c77a` (the registry's Green palette does
exactly this) and a new palette with the Blue primary, the primaries' hues
differ by far more than 0.5°, yet the returned map contains an entry whose
source color is protected. -/
theorem C2_counterexample :
    |hueShiftOf [("primary", "#a8c77a")] [("primary", "#82b1ff")]| ≥ 1/2 ∧
    ("#a8c77a".toList, "#82b1ff".toList) ∈
      build_full_color_map [("primary", "#a8c77a")]
        [("primary", "#82b1ff")] [] ∧
    "#a8c77a".toList ∈ PROTECTED_COLORS := by
  refine ⟨of_decide_eq_true (by with_unfolding_all rfl),
    of_decide_eq_true (by with_unfolding_all rfl), by decide⟩

/-- C2 amended: every *extrapolated* entry (an entry beyond the direct token
diffs) has a source color within 35° (inclusive) of the old primary hue,
with saturation strictly above 0.05, and not in the protected set; direct
entries are not filtered against the protected set. -/
theorem C2_amended (old new : Palette) (files : List (Option (List Char)))
    (_hshift : |hueShiftOf old new| ≥ 1/2) :
    ∀ kv ∈ build_full_color_map old new files,
      kv ∉ buildDirect old new →
        circHueDist (hex_to_hsl kv.1).1 (hex_to_hsl (primaryHex old)).1 ≤ 35 ∧
        (hex_to_hsl kv.1).2.1 > 1/20 ∧
        kv.1 ∉ PROTECTED_COLORS := by
  intro kv hkv hnd
  obtain ⟨hp, hd, hs⟩ := buildMap_extra_prop hkv hnd
  exact ⟨hd, hs, hp⟩

theorem C2_witness :
    |hueShiftOf [("primary", "#a8c77a")] [("primary", "#82b1ff")]| ≥ 1/2 ∧
    ∀ kv ∈ build_full_color_map [("primary", "#a8c77a")]
        [("primary", "#82b1ff")] [],
      kv ∉ buildDirect [("primary", "#a8c77a")] [("primary", "#82b1ff")] →
        circHueDist (hex_to_hsl kv.1).1
          (hex_to_hsl (primaryHex [("primary", "#a8c77a")])).1 ≤ 35 ∧
        (hex_to_hsl kv.1).2.1 > 1/20 ∧
        kv.1 ∉ PROTECTED_COLORS :=
  ⟨of_decide_eq_true (by with_unfolding_all rfl),
    C2_amended _ _ _ (of_decide_eq_true (by with_unfolding_all rfl))⟩

/-- C6: for a matching 7-character literal, a fully-uppercase spelling
(`isupper()`: at least one letter, none lowercase) yields the replacement
with its hex digits uppercased, and any other spelling yields the map value
verbatim, which is all lowercase for a well-formed map. -/
theorem C6_case_preservation (m : ColorMap) (t k v : Hex)
    (hgood : GoodMap m)
    (hfind : findKey m t = some k)
    (hlen : t.length = 7)
    (hlook : lookupHex m (lowerList t) = some v) :
    (pyIsUpper (t.drop 1) = true →
      recolorChars m t = '#' :: (v.drop 1).map toUpperChar ∧
      ∀ c ∈ recolorChars m t, isLowerAlpha c = false) ∧
    (pyIsUpper (t.drop 1) = false →
      recolorChars m t = v ∧
      ∀ c ∈ recolorChars m t, isUpperAlpha c = false) := by
  obtain ⟨v₀, hv₀⟩ := findKey_mem hfind
  have hk7 : k.length = 7 := isLowerHex7_length (hgood (k, v₀) hv₀).1
  have hv7 : isLowerHex7 v = true := by
    have hmk := matchesKey_iff.mp (findKey_matches hfind)
    have hlowt : lowerList t = k := by
      have ht : t.take k.length = t := by
        rw [hk7, ← hlen, List.take_length]
      unfold lowerList
      rw [← ht, hmk.2.2]
      exact lowerList_fix (hgood (k, v₀) hv₀).1
    rw [hlowt] at hlook
    obtain ⟨w, hlw, hmw⟩ := lookupHex_of_mem ⟨v₀, hv₀⟩
    rw [hlw] at hlook
    injection hlook with hwv
    rw [← hwv]
    exact (hgood (k, w) hmw).2
  obtain ⟨ds, hveq, hdsl, hds⟩ := isLowerHex7_elim hv7
  cases t with
  | nil => simp at hlen
  | cons c cs' =>
    have hrec : recolorChars m (c :: cs') = substHere m (c :: cs') := by
      rw [recolorChars_cons_match hfind]
      have h1 : (c :: cs').take k.length = c :: cs' := by
        rw [hk7, ← hlen, List.take_length]
      have h2 : (c :: cs').drop k.length = [] := by
        apply List.drop_eq_nil_of_le
        rw [hk7, hlen]
      rw [h1, h2, recolorChars_nil, List.append_nil]
    have hsub : substHere m (c :: cs') =
        if pyIsUpper ((c :: cs').drop 1) then
          '#' :: (v.drop 1).map toUpperChar
        else v := by
      unfold substHere
      simp only [hlook, Option.getD_some]
    constructor
    · intro hup
      have ho : recolorChars m (c :: cs') =
          '#' :: (v.drop 1).map toUpperChar := by
        rw [hrec, hsub, if_pos hup]
      refine ⟨ho, ?_⟩
      intro x hx
      rw [ho] at hx
      rcases List.mem_cons.mp hx with rfl | hx
      · decide
      · rw [hveq] at hx
        simp only [List.drop_succ_cons, List.drop_zero] at hx
        obtain ⟨d, hd, rfl⟩ := List.mem_map.mp hx
        exact toUpper_lowerHexDigit_not_lower (hds d hd)
    · intro hup
      have ho : recolorChars m (c :: cs') = v := by
        rw [hrec, hsub, if_neg (by simp only [hup]; exact Bool.false_ne_true)]
      refine ⟨ho, ?_⟩
      intro x hx
      rw [ho, hveq] at hx
      rcases List.mem_cons.mp hx with rfl | hx
      · decide
      · exact lowerHexDigit_not_upper (hds x hx)

theorem C6_witness :
    GoodMap [("#aabb0c".toList, "#dde0f1".toList)] ∧
    findKey [("#aabb0c".toList, "#dde0f1".toList)] "#AABB0C".toList =
      some "#aabb0c".toList ∧
    ("#AABB0C".toList).length = 7 ∧
    lookupHex [("#aabb0c".toList, "#dde0f1".toList)]
      (lowerList "#AABB0C".toList) = some "#dde0f1".toList ∧
    pyIsUpper ("#AABB0C".toList.drop 1) = true ∧
    recolorChars [("#aabb0c".toList, "#dde0f1".toList)] "#AABB0C".toList =
      '#' :: ("#dde0f1".toList.drop 1).map toUpperChar := by
  refine ⟨by unfold GoodMap goodEntry; decide, by decide, by decide,
    by decide, by decide, ?_⟩
  exact ((C6_case_preservation [("#aabb0c".toList, "#dde0f1".toList)]
    "#AABB0C".toList "#aabb0c".toList "#dde0f1".toList
    (by unfold GoodMap goodEntry; decide)
    (by decide) (by decide) (by decide)).1 (by decide)).1

/-- C7: `recolor_file` returns `False` with the filesystem unchanged when
the file is unreadable, when the write would fail, and when the substitution
does not change the content (in which case no write happens at all). -/
theorem C7_recolor_file_frame (fs : FS) (path : String) (m : ColorMap) :
    (fs.files path = none → recolor_file fs path m = (false, fs)) ∧
    (∀ text, fs.files path = some text → fs.writable path = false →
      (recolor_file fs path m).1 = false ∧ (recolor_file fs path m).2 = fs) ∧
    (∀ text, fs.files path = some text → recolorChars m text = text →
      recolor_file fs path m = (false, fs)) := by
  refine ⟨?_, ?_, ?_⟩
  · intro h
    unfold recolor_file
    rw [h]
  · intro text hread hwr
    unfold recolor_file
    rw [hread]
    simp only []
    split
    · exact ⟨rfl, rfl⟩
    · split
      · next hne =>
        rw [hwr]
        exact ⟨rfl, rfl⟩
      · exact ⟨rfl, rfl⟩
  · intro text hread heq
    unfold recolor_file
    rw [hread]
    simp only []
    split
    · rfl
    · rw [if_neg (by simp [heq])]

/-- C1 fails as stated: `build_full_color_map` can map one palette token's
old color to another token's old color (here `a: #aaaaaa→#bbbbbb` while
`b: #bbbbbb→#cccccc`), so a value of the map is also a key and the second
pass shifts the freshly introduced color again. -/
theorem C1_counterexample :
    (let m := build_full_color_map
        [("primary", "#ff0000"), ("a", "#aaaaaa"), ("b", "#bbbbbb")]
        [("primary", "#ff0000"), ("a", "#bbbbbb"), ("b", "#cccccc")] [];
      recolorChars m (recolorChars m "#aaaaaa".toList) ≠
        recolorChars m "#aaaaaa".toList) :=
  of_decide_eq_true (by with_unfolding_all rfl)

/-- C1 amended: `recolor_file`'s substitution pass is idempotent for every
map built by `build_full_color_map` from well-formed palettes in which no
value is also a key (the situation the counterexample exhibits is the only
way idempotence can fail). -/
theorem C1_amended (old new : Palette) (files : List (Option (List Char)))
    (cs : List Char) (hold : PaletteWF old) (hnew : PaletteWF new)
    (hdisj : ∀ kv ∈ build_full_color_map old new files,
      ∀ kv' ∈ build_full_color_map old new files, kv.2 ≠ kv'.1) :
    recolorChars (build_full_color_map old new files)
        (recolorChars (build_full_color_map old new files) cs) =
      recolorChars (build_full_color_map old new files) cs := by
  apply recolor_idem
  · intro kv hkv
    exact (buildMap_goodNe hold hnew kv hkv).1
  · exact hdisj

theorem C1_witness :
    PaletteWF [("primary", "#ff0000")] ∧ PaletteWF [("primary", "#00ff00")] ∧
    (∀ kv ∈ build_full_color_map [("primary", "#ff0000")]
        [("primary", "#00ff00")] [],
      ∀ kv' ∈ build_full_color_map [("primary", "#ff0000")]
        [("primary", "#00ff00")] [], kv.2 ≠ kv'.1) ∧
    recolorChars (build_full_color_map [("primary", "#ff0000")]
        [("primary", "#00ff00")] [])
        (recolorChars (build_full_color_map [("primary", "#ff0000")]
          [("primary", "#00ff00")] []) "#FF0000 body".toList) =
      recolorChars (build_full_color_map [("primary", "#ff0000")]
        [("primary", "#00ff00")] []) "#FF0000 body".toList := by
  refine ⟨by unfold PaletteWF; decide, by unfold PaletteWF; decide,
    of_decide_eq_true (by with_unfolding_all rfl), ?_⟩
  exact C1_amended _ _ _ _ (by unfold PaletteWF; decide)
    (by unfold PaletteWF; decide)
    (of_decide_eq_true (by with_unfolding_all rfl))

theorem C7_witness :
    recolor_file
      { files := fun _ => none, writable := fun _ => true,
        manifests := fun _ => none, dconf := fun _ => "" }
      "missing.css" [("#aaaaaa".toList, "#bbbbbb".toList)] =
    (false,
      { files := fun _ => none, writable := fun _ => true,
        manifests := fun _ => none, dconf := fun _ => "" }) :=
  (C7_recolor_file_frame _ "missing.css" _).1 rfl

/-- C4 fails as stated: `GnomeShellInstaller.install` calls
`backup.backup_file(dst)` before it checks `dry_run`, so a dry run does
invoke `BackupFile` (observable in the ghost call log, and on the console as
the "Would backup" line). -/
theorem C4_counterexample :
    (gnomeShellInstall "/t" "/h" sampleFS sampleBM true).2.2.fileCalls =
      ["/h/.themes/Material-You-Orange/gnome-shell/gnome-shell.css"] ∧
    sampleBM.fileCalls = [] := by
  constructor
  · decide
  · rfl

/-- C4 amended: a dry-run `install` does call `BackupFile`, but with the
run's `BackupManager` also in dry-run mode (as the orchestrator wires it)
nothing is written and no manifest record is added; when the source
stylesheet exists the result is Success and describes the copy that would
happen, and a missing source yields Failed even in dry run. -/
theorem C4_amended (themeDir home : String) (fs : FS) (bm : BM)
    (hdry : bm.dryRun = true) :
    (gnomeShellInstall themeDir home fs bm true).2.1 = fs ∧
    (gnomeShellInstall themeDir home fs bm true).2.2.manifestFiles =
      bm.manifestFiles ∧
    (fs.files (gnomeShellSrc themeDir) ≠ none →
      (gnomeShellInstall themeDir home fs bm true).1.status = .success ∧
      (gnomeShellInstall themeDir home fs bm true).1.message =
        "Would copy to " ++ gnomeShellDst home) ∧
    (fs.files (gnomeShellSrc themeDir) = none →
      (gnomeShellInstall themeDir home fs bm true).1.status = .failed) := by
  cases hsrc : fs.files (gnomeShellSrc themeDir) with
  | none =>
    unfold gnomeShellInstall
    rw [hsrc]
    exact ⟨rfl, rfl, fun hc => absurd rfl hc, fun _ => rfl⟩
  | some content =>
    unfold gnomeShellInstall backup_file
    rw [hsrc]
    cases hdst : fs.files (gnomeShellDst home) with
    | none =>
      simp only [hdst]
      exact ⟨rfl, rfl, fun _ => ⟨rfl, rfl⟩, fun hc => absurd hc (by simp)⟩
    | some c' =>
      simp only [hdst, hdry]
      exact ⟨rfl, rfl, fun _ => ⟨rfl, rfl⟩, fun hc => absurd hc (by simp)⟩

theorem C4_witness :
    sampleBM.dryRun = true ∧
    (gnomeShellInstall "/t" "/h" sampleFS sampleBM true).2.1 = sampleFS ∧
    (gnomeShellInstall "/t" "/h" sampleFS sampleBM true).2.2.manifestFiles =
      sampleBM.manifestFiles ∧
    (gnomeShellInstall "/t" "/h" sampleFS sampleBM true).1.status =
      .success := by
  have h := C4_amended "/t" "/h" sampleFS sampleBM rfl
  exact ⟨rfl, h.1, h.2.1, (h.2.2.1 (by decide)).1⟩

/-- C5 fails in its second half: the abort raised in `_install_single`
propagates out of `run` before `save_manifest` is reached (it is caught
only in `main`), so the manifest collected so far is not saved.  No
remaining step executes, as the claim says. -/
theorem C5_counterexample :
    runInstallPhase false false sampleBehavior (selectSteps [1, 2]) =
      ⟨[], false⟩ := by
  decide

theorem installSteps_cons (nonInteractive : Bool)
    (behavior : ℕ → List StepOutcome × List Decision) (s : Step)
    (rest : List Step) :
    installSteps nonInteractive behavior (s :: rest) =
      match installSingle nonInteractive s (behavior s.number).1
          (behavior s.number).2 with
      | some r => (r :: (installSteps nonInteractive behavior rest).1,
          (installSteps nonInteractive behavior rest).2)
      | none => ([], true) := rfl

theorem installSteps_append_abort (nonInteractive : Bool)
    (behavior : ℕ → List StepOutcome × List Decision) (s : Step)
    (post : List Step)
    (habort : installSingle nonInteractive s (behavior s.number).1
      (behavior s.number).2 = none) :
    ∀ pre : List Step,
      (∀ p ∈ pre, (installSingle nonInteractive p (behavior p.number).1
        (behavior p.number).2).isSome = true) →
      (installSteps nonInteractive behavior (pre ++ s :: post)).2 = true ∧
      (installSteps nonInteractive behavior (pre ++ s :: post)).1.length =
        pre.length := by
  intro pre
  induction pre with
  | nil =>
    intro _
    rw [List.nil_append, installSteps_cons, habort]
    exact ⟨rfl, rfl⟩
  | cons p pre' ih =>
    intro hpre
    have hp := hpre p (List.mem_cons_self _ _)
    obtain ⟨r, hr⟩ := Option.isSome_iff_exists.mp hp
    have ih' := ih fun q hq => hpre q (List.mem_cons_of_mem _ hq)
    rw [List.cons_append, installSteps_cons, hr]
    simp only [List.length_cons]
    exact ⟨ih'.1, by rw [ih'.2]⟩

/-- C5 amended: when the user chooses abort (or any path that raises
`KeyboardInterrupt` out of `_install_single`), the remaining steps are not
executed — but `save_manifest` is *not* called either: the manifest
collected so far is saved only when the step loop finishes, including runs
with failed steps. -/
theorem C5_amended (noBackup nonInteractive : Bool)
    (behavior : ℕ → List StepOutcome × List Decision)
    (pre : List Step) (s : Step) (post : List Step)
    (hpre : ∀ p ∈ pre, (installSingle nonInteractive p (behavior p.number).1
      (behavior p.number).2).isSome = true)
    (habort : installSingle nonInteractive s (behavior s.number).1
      (behavior s.number).2 = none) :
    (runInstallPhase noBackup nonInteractive behavior
      (pre ++ s :: post)).results.length = pre.length ∧
    (runInstallPhase noBackup nonInteractive behavior
      (pre ++ s :: post)).manifestSaved = false ∧
    ((installSteps nonInteractive behavior (pre ++ s :: post)).2 = false →
      (runInstallPhase noBackup nonInteractive behavior
        (pre ++ s :: post)).manifestSaved = !noBackup) := by
  obtain ⟨hab, hlen⟩ :=
    installSteps_append_abort nonInteractive behavior s post habort pre hpre
  have he : runInstallPhase noBackup nonInteractive behavior
      (pre ++ s :: post) =
      if (installSteps nonInteractive behavior (pre ++ s :: post)).2 = true
      then ⟨(installSteps nonInteractive behavior (pre ++ s :: post)).1, false⟩
      else ⟨(installSteps nonInteractive behavior (pre ++ s :: post)).1,
        !noBackup⟩ := rfl
  rw [he, hab, if_pos rfl]
  exact ⟨hlen, rfl, fun hc => absurd hc (by simp)⟩

theorem C5_witness :
    (∀ p ∈ ([] : List Step),
      (installSingle false p (sampleBehavior p.number).1
        (sampleBehavior p.number).2).isSome = true) ∧
    installSingle false ⟨1, "GNOME Shell Theme", false⟩
      (sampleBehavior 1).1 (sampleBehavior 1).2 = none ∧
    (runInstallPhase false false sampleBehavior
      ([] ++ ⟨1, "GNOME Shell Theme", false⟩ ::
        [⟨2, "GTK4 Theme", false⟩])).results.length = 0 ∧
    (runInstallPhase false false sampleBehavior
      ([] ++ ⟨1, "GNOME Shell Theme", false⟩ ::
        [⟨2, "GTK4 Theme", false⟩])).manifestSaved = false := by
  have h := C5_amended false false sampleBehavior []
    ⟨1, "GNOME Shell Theme", false⟩ [⟨2, "GTK4 Theme", false⟩]
    (by intro p hp; exact absurd hp (List.not_mem_nil p)) (by decide)
  exact ⟨by intro p hp; exact absurd hp (List.not_mem_nil p), by decide,
    h.1, h.2.1⟩

theorem promptLoop_number {s : Step} :
    ∀ (ds : List Decision) (attempts : List StepOutcome) (r : ComponentResult),
      promptLoop s ds attempts = some r → r.number = s.number := by
  intro ds
  induction ds with
  | nil => intro attempts r h; simp [promptLoop] at h
  | cons d ds' ih =>
    intro attempts r h
    cases d with
    | skip => cases h; rfl
    | abort => simp [promptLoop] at h
    | retry =>
      cases attempts with
      | nil => simp [promptLoop] at h
      | cons a as =>
        cases a with
        | ok st msg => cases h; rfl
        | exc e => exact ih as r h
        | kbint => simp [promptLoop] at h

theorem installSingle_ok (nonInteractive : Bool) (s : Step) (st : Status)
    (msg : String) (as : List StepOutcome) (decisions : List Decision) :
    installSingle nonInteractive s (.ok st msg :: as) decisions =
      some (mkResult s st msg) := rfl

theorem installSingle_kbint (nonInteractive : Bool) (s : Step)
    (as : List StepOutcome) (decisions : List Decision) :
    installSingle nonInteractive s (.kbint :: as) decisions =
      some (mkResult s .failed "Interrupted") := rfl

theorem installSingle_exc (nonInteractive : Bool) (s : Step) (e : String)
    (as : List StepOutcome) (decisions : List Decision) :
    installSingle nonInteractive s (.exc e :: as) decisions =
      if nonInteractive then some (mkResult s .failed e)
      else promptLoop s decisions as := rfl

theorem installSingle_number {nonInteractive : Bool} {s : Step}
    {attempts : List StepOutcome} {decisions : List Decision}
    {r : ComponentResult}
    (h : installSingle nonInteractive s attempts decisions = some r) :
    r.number = s.number := by
  cases attempts with
  | nil => simp [installSingle] at h
  | cons a as =>
    cases a with
    | ok st msg =>
      rw [installSingle_ok] at h
      injection h with h
      rw [← h]
      rfl
    | kbint =>
      rw [installSingle_kbint] at h
      injection h with h
      rw [← h]
      rfl
    | exc e =>
      rw [installSingle_exc] at h
      split at h
      · injection h with h
        rw [← h]
        rfl
      · exact promptLoop_number decisions as r h

theorem installSteps_complete (nonInteractive : Bool)
    (behavior : ℕ → List StepOutcome × List Decision) :
    ∀ steps : List Step,
      (∀ s ∈ steps, (installSingle nonInteractive s (behavior s.number).1
        (behavior s.number).2).isSome = true) →
      (installSteps nonInteractive behavior steps).2 = false ∧
      (installSteps nonInteractive behavior steps).1.map
        ComponentResult.number = steps.map Step.number := by
  intro steps
  induction steps with
  | nil => intro _; exact ⟨rfl, rfl⟩
  | cons s rest ih =>
    intro hall
    obtain ⟨r, hr⟩ := Option.isSome_iff_exists.mp
      (hall s (List.mem_cons_self _ _))
    have ih' := ih fun q hq => hall q (List.mem_cons_of_mem _ hq)
    rw [installSteps_cons, hr]
    simp only [List.map_cons]
    exact ⟨ih'.1, by rw [installSingle_number hr, ih'.2]⟩

theorem ALL_STEPS_pairwise :
    ALL_STEPS.Pairwise (fun a b => a.number < b.number) := by decide

theorem selectSteps_pairwise (nums : List ℕ) :
    (selectSteps nums).Pairwise (fun a b => a.number < b.number) :=
  List.Pairwise.sublist (List.filter_sublist _) ALL_STEPS_pairwise

/-- C8: with every selected step resolving to a result (no abort), the
orchestrator produces exactly one result per selected step, in the
registry's strictly ascending step-number order. -/
theorem C8_result_completeness (nums : List ℕ) (nonInteractive : Bool)
    (behavior : ℕ → List StepOutcome × List Decision)
    (hall : ∀ s ∈ selectSteps nums,
      (installSingle nonInteractive s (behavior s.number).1
        (behavior s.number).2).isSome = true) :
    (installSteps nonInteractive behavior (selectSteps nums)).2 = false ∧
    (installSteps nonInteractive behavior (selectSteps nums)).1.map
      ComponentResult.number = (selectSteps nums).map Step.number ∧
    List.Sorted (· < ·)
      ((installSteps nonInteractive behavior (selectSteps nums)).1.map
        ComponentResult.number) := by
  obtain ⟨h1, h2⟩ := installSteps_complete nonInteractive behavior _ hall
  refine ⟨h1, h2, ?_⟩
  rw [h2]
  exact List.pairwise_map.mpr (selectSteps_pairwise nums)

theorem C8_witness :
    (∀ s ∈ selectSteps [3, 4, 5, 9],
      (installSingle true s (allOkBehavior s.number).1
        (allOkBehavior s.number).2).isSome = true) ∧
    (installSteps true allOkBehavior
      (selectSteps [3, 4, 5, 9])).1.map ComponentResult.number =
      (selectSteps [3, 4, 5, 9]).map Step.number ∧
    (selectSteps [3, 4, 5, 9]).map Step.number = [3, 4, 5, 9] := by
  refine ⟨by decide, ?_, by decide⟩
  exact (C8_result_completeness [3, 4, 5, 9] true allOkBehavior
    (by decide)).2.1

theorem restoreFiles_cons (orig bak : String)
    (rest : List (String × String)) (fs : FS) :
    restoreFiles ((orig, bak) :: rest) fs =
      match fs.files bak with
      | some c => ((restoreFiles rest (fsWrite fs orig c)).1,
          .fileRestored orig :: (restoreFiles rest (fsWrite fs orig c)).2)
      | none => ((restoreFiles rest fs).1,
          .fileBackupMissing bak :: (restoreFiles rest fs).2) := rfl

theorem restoreDconf_cons (loadOk : String → String → Bool)
    (path bak : String) (rest : List (String × String)) (fs : FS) :
    restoreDconf loadOk ((path, bak) :: rest) fs =
      match fs.files bak with
      | some data =>
        if loadOk path (String.mk data) then
          ((restoreDconf loadOk rest
              (dconfSet (dconfSet fs path "") path (String.mk data))).1,
            .dconfRestored path :: (restoreDconf loadOk rest
              (dconfSet (dconfSet fs path "") path (String.mk data))).2)
        else
          ((restoreDconf loadOk rest (dconfSet fs path "")).1,
            .dconfLoadFailed path ::
              (restoreDconf loadOk rest (dconfSet fs path "")).2)
      | none => ((restoreDconf loadOk rest fs).1,
          .dconfBackupMissing bak :: (restoreDconf loadOk rest fs).2) := rfl

theorem restoreFiles_length :
    ∀ (recs : List (String × String)) (fs : FS),
      (restoreFiles recs fs).2.length = recs.length := by
  intro recs
  induction recs with
  | nil => intro fs; rfl
  | cons r rest ih =>
    intro fs
    rw [show r = (r.1, r.2) from rfl, restoreFiles_cons]
    cases fs.files r.2 with
    | some c => simp only [List.length_cons, ih]
    | none => simp only [List.length_cons, ih]

theorem restoreDconf_length (loadOk : String → String → Bool) :
    ∀ (recs : List (String × String)) (fs : FS),
      (restoreDconf loadOk recs fs).2.length = recs.length := by
  intro recs
  induction recs with
  | nil => intro fs; rfl
  | cons r rest ih =>
    intro fs
    rw [show r = (r.1, r.2) from rfl, restoreDconf_cons]
    split
    · split
      · simp only [List.length_cons, ih]
      · simp only [List.length_cons, ih]
    · simp only [List.length_cons, ih]

theorem restore_eq (loadOk : String → String → Bool) (backupDir : String)
    (fs : FS) :
    restore loadOk backupDir fs =
      match fs.manifests (backupDir ++ "/manifest.json") with
      | none => (false, fs, [])
      | some man =>
        (true, (restoreDconf loadOk man.dconf (restoreFiles man.files fs).1).1,
          (restoreFiles man.files fs).2 ++
            (restoreDconf loadOk man.dconf (restoreFiles man.files fs).1).2) :=
  rfl

/-- C10: restore fails only when the manifest is absent; with a manifest it
emits exactly one report per file record and per dconf record (missing
backups and failed key loads are reported, not fatal). -/
theorem C10_restore_tolerance (loadOk : String → String → Bool)
    (backupDir : String) (fs : FS) :
    ((restore loadOk backupDir fs).1 = false ↔
      fs.manifests (backupDir ++ "/manifest.json") = none) ∧
    (∀ man, fs.manifests (backupDir ++ "/manifest.json") = some man →
      (restore loadOk backupDir fs).2.2.length =
        man.files.length + man.dconf.length) := by
  cases hman : fs.manifests (backupDir ++ "/manifest.json") with
  | none =>
    rw [restore_eq, hman]
    exact ⟨⟨fun _ => rfl, fun _ => rfl⟩,
      fun man hm => absurd hm (by simp)⟩
  | some man =>
    rw [restore_eq, hman]
    constructor
    · constructor
      · intro h; exact absurd h (by simp)
      · intro h; exact absurd h (by simp)
    · intro man' hm
      injection hm with hm
      subst hm
      simp only [List.length_append, restoreFiles_length,
        restoreDconf_length]

theorem C10_witness :
    sampleRestoreFS.manifests ("/b" ++ "/manifest.json") =
      some ⟨"t1", [("/orig/a", "/b/bak1"), ("/orig/b", "/b/bak2")],
        [("/k1", "/b/dbak")]⟩ ∧
    (restore (fun _ _ => false) "/b" sampleRestoreFS).2.2.length = 3 := by
  refine ⟨by decide, ?_⟩
  exact (C10_restore_tolerance (fun _ _ => false) "/b" sampleRestoreFS).2
    ⟨"t1", [("/orig/a", "/b/bak1"), ("/orig/b", "/b/bak2")],
      [("/k1", "/b/dbak")]⟩ (by decide)

theorem fsWrite_self (fs : FS) (p : String) (c : List Char) :
    (fsWrite fs p c).files p = some c := by
  unfold fsWrite
  simp

theorem fsWrite_other (fs : FS) (p q : String) (c : List Char)
    (h : q ≠ p) : (fsWrite fs p c).files q = fs.files q := by
  unfold fsWrite
  simp [h]

theorem restoreFiles_fst_append :
    ∀ (l₁ l₂ : List (String × String)) (fs : FS),
      (restoreFiles (l₁ ++ l₂) fs).1 =
        (restoreFiles l₂ (restoreFiles l₁ fs).1).1 := by
  intro l₁
  induction l₁ with
  | nil => intro l₂ fs; rfl
  | cons r rest ih =>
    intro l₂ fs
    rw [List.cons_append, show r = (r.1, r.2) from rfl, restoreFiles_cons,
      restoreFiles_cons]
    cases fs.files r.2 with
    | some c => exact ih l₂ (fsWrite fs r.1 c)
    | none => exact ih l₂ fs

theorem restoreFiles_files_other :
    ∀ (recs : List (String × String)) (fs : FS) (d : String),
      (∀ r ∈ recs, r.1 ≠ d) →
      (restoreFiles recs fs).1.files d = fs.files d := by
  intro recs
  induction recs with
  | nil => intro fs d _; rfl
  | cons r rest ih =>
    intro fs d hne
    rw [show r = (r.1, r.2) from rfl, restoreFiles_cons]
    cases fs.files r.2 with
    | some c =>
      rw [ih (fsWrite fs r.1 c) d
        fun q hq => hne q (List.mem_cons_of_mem _ hq)]
      exact fsWrite_other fs r.1 d c
        fun he => hne r (List.mem_cons_self _ _) he.symm
    | none =>
      exact ih fs d fun q hq => hne q (List.mem_cons_of_mem _ hq)

theorem restoreDconf_fst_files (loadOk : String → String → Bool) :
    ∀ (recs : List (String × String)) (fs : FS),
      (restoreDconf loadOk recs fs).1.files = fs.files := by
  intro recs
  induction recs with
  | nil => intro fs; rfl
  | cons r rest ih =>
    intro fs
    rw [show r = (r.1, r.2) from rfl, restoreDconf_cons]
    split
    · split
      · rw [ih]; rfl
      · rw [ih]; rfl
    · rw [ih]

theorem save_manifest_files (home : String) (fs : FS) (bm : BM) :
    (save_manifest home fs bm).files = fs.files := by
  unfold save_manifest
  split <;> rfl

theorem save_manifest_hit (home : String) (fs : FS) {bm : BM}
    (hdry : bm.dryRun = false) :
    (save_manifest home fs bm).manifests
        (backupDirOf home bm ++ "/manifest.json") =
      some ⟨bm.timestamp, bm.manifestFiles, bm.manifestDconf⟩ := by
  unfold save_manifest
  rw [if_neg (by simp [hdry])]
  simp

theorem backup_file_run (home : String) {fs : FS} {bm : BM} {p : String}
    {c : List Char} (hc : fs.files p = some c) (hdry : bm.dryRun = false) :
    backup_file home fs bm p =
      (true,
        fsWrite fs (backupFileDest home (backupDirOf home bm) p) c,
        { bm with
            fileCalls := bm.fileCalls ++ [p]
            manifestFiles := bm.manifestFiles ++
              [(p, backupFileDest home (backupDirOf home bm) p)] }) := by
  unfold backup_file
  simp only [hc, hdry, Bool.false_eq_true, if_false]
  rfl

/-- C3: a file that exists at `backup_file` time is restored byte-for-byte
from the saved manifest, whatever happened to it in between, as long as the
modifications touch only the file itself (not the backup tree or the
manifest) and no other manifest record targets its backup path. -/
theorem C3_backup_restore_roundtrip
    (home : String) (fs : FS) (bm : BM) (p : String) (c : List Char)
    (loadOk : String → String → Bool) (fs₂ : FS)
    (hex : fs.files p = some c)
    (hdry : bm.dryRun = false)
    (hdest : backupFileDest home (backupDirOf home bm) p ≠ p)
    (hprev : ∀ r ∈ bm.manifestFiles,
      r.1 ≠ backupFileDest home (backupDirOf home bm) p)
    (hmodf : ∀ q, q ≠ p →
      fs₂.files q =
        (save_manifest home (backup_file home fs bm p).2.1
          (backup_file home fs bm p).2.2).files q)
    (hmodm : fs₂.manifests =
      (save_manifest home (backup_file home fs bm p).2.1
        (backup_file home fs bm p).2.2).manifests) :
    (backup_file home fs bm p).1 = true ∧
    (restore loadOk (backupDirOf home bm) fs₂).2.1.files p = some c := by
  have hb := backup_file_run home hex hdry
  set dest := backupFileDest home (backupDirOf home bm) p with hdestdef
  set bm₂ : BM :=
    { bm with
        fileCalls := bm.fileCalls ++ [p]
        manifestFiles := bm.manifestFiles ++ [(p, dest)] } with hbm₂
  have hdir : backupDirOf home bm₂ = backupDirOf home bm := rfl
  have hdry₂ : bm₂.dryRun = false := hdry
  refine ⟨by rw [hb], ?_⟩
  have hmani : fs₂.manifests (backupDirOf home bm ++ "/manifest.json") =
      some ⟨bm.timestamp, bm.manifestFiles ++ [(p, dest)],
        bm.manifestDconf⟩ := by
    rw [hmodm, hb]
    have hs := save_manifest_hit home (fsWrite fs dest c) hdry₂
    rw [hdir] at hs
    exact hs
  rw [restore_eq, hmani]
  show (restoreDconf loadOk bm.manifestDconf
    (restoreFiles (bm.manifestFiles ++ [(p, dest)]) fs₂).1).1.files p = some c
  rw [congrFun (restoreDconf_fst_files loadOk bm.manifestDconf _) p,
    restoreFiles_fst_append]
  have hfs3 : (restoreFiles bm.manifestFiles fs₂).1.files dest =
      some c := by
    rw [restoreFiles_files_other bm.manifestFiles fs₂ dest hprev]
    rw [hmodf dest hdest, hb]
    rw [congrFun (save_manifest_files home (fsWrite fs dest c) bm₂) dest]
    exact fsWrite_self fs dest c
  rw [restoreFiles_cons, hfs3]
  exact fsWrite_self _ p c

theorem C3_witness :
    ({ files := fun q => if q = "/h/a.css" then some "old".toList else none,
       writable := fun _ => true, manifests := fun _ => none,
       dconf := fun _ => "" } : FS).files "/h/a.css" = some "old".toList ∧
    (restore (fun _ _ => true)
      (backupDirOf "/h" ⟨false, "t1", [], [], []⟩)
      { files := fun q => if q = "/h/a.css" then none
          else (save_manifest "/h"
            (backup_file "/h"
              { files := fun q => if q = "/h/a.css" then some "old".toList
                  else none,
                writable := fun _ => true, manifests := fun _ => none,
                dconf := fun _ => "" }
              ⟨false, "t1", [], [], []⟩ "/h/a.css").2.1
            (backup_file "/h"
              { files := fun q => if q = "/h/a.css" then some "old".toList
                  else none,
                writable := fun _ => true, manifests := fun _ => none,
                dconf := fun _ => "" }
              ⟨false, "t1", [], [], []⟩ "/h/a.css").2.2).files q,
        writable := fun _ => true,
        manifests := (save_manifest "/h"
            (backup_file "/h"
              { files := fun q => if q = "/h/a.css" then some "old".toList
                  else none,
                writable := fun _ => true, manifests := fun _ => none,
                dconf := fun _ => "" }
              ⟨false, "t1", [], [], []⟩ "/h/a.css").2.1
            (backup_file "/h"
              { files := fun q => if q = "/h/a.css" then some "old".toList
                  else none,
                writable := fun _ => true, manifests := fun _ => none,
                dconf := fun _ => "" }
              ⟨false, "t1", [], [], []⟩ "/h/a.css").2.2).manifests,
        dconf := fun _ => "" }).2.1.files "/h/a.css" = some "old".toList := by
  refine ⟨by decide, ?_⟩
  exact (C3_backup_restore_roundtrip "/h"
    { files := fun q => if q = "/h/a.css" then some "old".toList else none,
      writable := fun _ => true, manifests := fun _ => none,
      dconf := fun _ => "" }
    ⟨false, "t1", [], [], []⟩ "/h/a.css" "old".toList (fun _ _ => true) _
    (by decide) rfl (by decide)
    (by intro r hr; exact absurd hr (List.not_mem_nil r))
    (fun q hq => by simp [if_neg hq])
    rfl).2

end MaterialGnome
